import Mathlib

/-!
Verification development for the `gowool/menu` Go library: an in-memory
hierarchical navigation tree ("menu"), a voting current/ancestor matcher with a
per-item cache, and a recursive list renderer with depth budgets and CSS class
assignment.

Shallow embedding conventions:

* The `Item` value model (`Menu.Item`) mirrors the Go `Item` struct from
  `item.go` minus the `Parent` back-pointer: a Lean inductive value tree cannot
  carry parent references, so derived queries that consult `Parent` in Go
  (`Level`, `ActsLikeFirst`, `ActsLikeLast`, `IsFirst`, `IsLast`) receive the
  ambient information (level, the parent's children slice, and the item's
  position inside it) as explicit arguments; the render engine supplies them
  exactly as the recursion structure of the Go code does.
* Go string-keyed `map[string]any` attribute bags are modelled as association
  lists in insertion order, with string-valued attributes (the renderer reads
  attribute values only through the `.(string)` cast) and boolean-valued
  extras (the renderer reads extras only through the `.(bool)` cast).
* The matcher cache (`map[*Item]bool`, keyed by pointer) is modelled as a
  function `Item → Option Bool` keyed by structural equality: voters are
  deterministic functions of `(ctx, item)`, so structurally equal items are
  interchangeable for every cached verdict.
* Mutation claims about `AddChild`/`Copy` (ownership, aliasing of the bags)
  are settled against an explicit heap model (`Heap.Node`, `Heap.HeapM`) in
  which items are numbered nodes and the five mutable bags are numbered
  references, so that sharing is observable.
* Go runtime panics (nil-pointer writes in `WithCurrent`, `WithDepth`,
  `WithMatchingDepth`) are modelled as a distinguished `Except` failure
  constructor, separate from returned Go `error` values.
-/

/-- Outcome of running a Go option mutator: a Go runtime panic (here only
the nil-pointer-dereference write) is kept distinct from a returned Go
`error` value, because a caller can handle the latter but crashes on the
former. -/
inductive GoFailure where
  | panicNilPointer
  | goError (msg : String)
deriving DecidableEq, Repr

namespace Menu

/-- The non-recursive fields of the Go `Item` struct (`item.go`), in source
order. `Parent` is omitted (see the module docstring); `Children` is the
recursive argument of `Item` below. -/
structure ItemData where
  name : String
  uri : String
  label : String
  position : Int
  displayChildren : Bool
  display : Bool
  current : Option Bool
  attributes : List (String × String)
  linkAttributes : List (String × String)
  childrenAttributes : List (String × String)
  labelAttributes : List (String × String)
  extras : List (String × Bool)
deriving DecidableEq, Repr

/-- A node of the menu tree: the Go `*Item` with its (recursively owned)
`Children` slice. -/
inductive Item : Type where
  | mk (data : ItemData) (children : List Item)

/-- The non-recursive fields of an item. -/
def Item.data : Item → ItemData
  | .mk d _ => d

/-- The `Children` slice of an item. -/
def Item.children : Item → List Item
  | .mk _ cs => cs

def Item.name (i : Item) : String := i.data.name
def Item.uri (i : Item) : String := i.data.uri
def Item.label (i : Item) : String := i.data.label
def Item.position (i : Item) : Int := i.data.position
def Item.displayChildren (i : Item) : Bool := i.data.displayChildren
def Item.display (i : Item) : Bool := i.data.display
def Item.current (i : Item) : Option Bool := i.data.current
def Item.attributes (i : Item) : List (String × String) := i.data.attributes
def Item.linkAttributes (i : Item) : List (String × String) := i.data.linkAttributes
def Item.childrenAttributes (i : Item) : List (String × String) := i.data.childrenAttributes
def Item.labelAttributes (i : Item) : List (String × String) := i.data.labelAttributes
def Item.extras (i : Item) : List (String × Bool) := i.data.extras

mutual

/-- Boolean structural equality on items (pointer identity is refined to
structural identity, see the module docstring). -/
def Item.beq : Item → Item → Bool
  | .mk d cs, .mk e ds => d == e && Item.beqList cs ds

def Item.beqList : List Item → List Item → Bool
  | [], [] => true
  | c :: cs, d :: ds => Item.beq c d && Item.beqList cs ds
  | _, _ => false

end

mutual

theorem Item.beq_iff : ∀ a b : Item, Item.beq a b = true ↔ a = b
  | .mk d cs, .mk e ds => by
    simp only [Item.beq, Bool.and_eq_true, beq_iff_eq, Item.mk.injEq]
    exact and_congr Iff.rfl (Item.beqList_iff cs ds)

theorem Item.beqList_iff : ∀ a b : List Item, Item.beqList a b = true ↔ a = b
  | [], [] => by simp [Item.beqList]
  | [], _ :: _ => by simp [Item.beqList]
  | _ :: _, [] => by simp [Item.beqList]
  | c :: cs, d :: ds => by
    simp only [Item.beqList, Bool.and_eq_true, List.cons.injEq]
    exact and_congr (Item.beq_iff c d) (Item.beqList_iff cs ds)

end

instance : DecidableEq Item := fun a b =>
  decidable_of_iff (Item.beq a b = true) (Item.beq_iff a b)

/-- `Item.IsCurrent` (`item.go`): the item is marked as current. -/
def Item.isCurrentFlag (i : Item) : Bool :=
  match i.current with
  | some b => b
  | none => false

/-- `Item.HasChildren` (`item.go`): the item has at least one child with
`Display = true`. -/
def Item.hasChildren (i : Item) : Bool :=
  i.children.any (fun c => c.display)

/-- `Item.Attribute(name, def)` (`item.go`): lookup in the `Attributes` bag
with a default. -/
def Item.attribute (i : Item) (name deflt : String) : String :=
  match i.attributes.lookup name with
  | some v => v
  | none => deflt

/-- `Item.ChildrenAttribute(name, def)` (`item.go`). -/
def Item.childrenAttribute (i : Item) (name deflt : String) : String :=
  match i.childrenAttributes.lookup name with
  | some v => v
  | none => deflt

/-- `Item.Extra(name, def)` (`item.go`), at the `bool` typing used by the
renderer (`item.Extra("safe_label", false).(bool)`). -/
def Item.extra (i : Item) (name : String) (deflt : Bool) : Bool :=
  match i.extras.lookup name with
  | some v => v
  | none => deflt

/-- `Item.ActsLikeFirst` (`item.go`) for an item that has a parent:
`siblings` is the parent's `Children` slice and `idx` the item's position in
it (pointer identity of a child inside its parent's slice is its index).
The Go root-item branch (`i.Parent == nil → false`) is handled at the call
sites: the renderer only applies this to children, which always have a
parent. -/
def actsLikeFirst (siblings : List Item) (idx : Nat) (i : Item) : Bool :=
  if !i.display then false
  else if idx = 0 then true
  else
    match siblings.find? (fun c => c.display) with
    | some c => c.name == i.name
    | none => false

/-- `Item.ActsLikeLast` (`item.go`), same conventions as `actsLikeFirst`;
the Go loop walks the parent's children backwards. -/
def actsLikeLast (siblings : List Item) (idx : Nat) (i : Item) : Bool :=
  if !i.display then false
  else if idx = siblings.length - 1 then true
  else
    match siblings.reverse.find? (fun c => c.display) with
    | some c => c.name == i.name
    | none => false

/-- Fixture: a minimal item with the `NewItem` defaults (`Display` and
`DisplayChildren` true, empty bags) plus a name, a forced-current flag and
children; used by concrete witnesses and counterexamples. -/
def mkItem (name : String) (current : Option Bool) (children : List Item) : Item :=
  Item.mk ⟨name, "", "", 0, true, true, current, [], [], [], [], []⟩ children

/-- A `Voter` (`voter.go`): `MatchItem(ctx, item)` returns `some verdict` or
abstains with `none`. The request context type is abstract. -/
def Voter (Ctx : Type) : Type := Ctx → Item → Option Bool

/-- The voter loop inside `CoreMatcher.IsCurrent` (`matcher.go` lines 74-80):
the first voter that does not abstain decides; if every voter abstains the
item is not current. -/
def runVoters {Ctx : Type} : List (Voter Ctx) → Ctx → Item → Bool
  | [], _, _ => false
  | v :: vs, ctx, item =>
    match v ctx item with
    | some b => b
    | none => runVoters vs ctx item

/-- `CoreMatcher` (`matcher.go`): the registered voters and the per-item
verdict cache (`map[*Item]bool`). The `sync.RWMutex` guards a cache that is
only read and written by the single-threaded call tree modelled here, so the
lock has no observable effect in this embedding. -/
structure CoreMatcher (Ctx : Type) where
  voters : List (Voter Ctx)
  cache : Item → Option Bool

/-- `NewCoreMatcher` (`matcher.go`): given voters, with an empty cache. -/
def NewCoreMatcher {Ctx : Type} (voters : List (Voter Ctx)) : CoreMatcher Ctx :=
  { voters := voters, cache := fun _ => none }

/-- `CoreMatcher.IsCurrent` (`matcher.go` lines 63-88). Returns the verdict
and the matcher with its (possibly updated) cache. -/
def isCurrent {Ctx : Type} (m : CoreMatcher Ctx) (ctx : Ctx) (item : Item) :
    Bool × CoreMatcher Ctx :=
  match item.current with
  | some b => (b, m)
  | none =>
    match m.cache item with
    | some v => (v, m)
    | none =>
      let current := runVoters m.voters ctx item
      (current,
        { m with cache := fun j => if j = item then some current else m.cache j })

/-- `CoreMatcher.Clear` (`matcher.go` lines 112-117): empty the cache. -/
def clear {Ctx : Type} (m : CoreMatcher Ctx) : CoreMatcher Ctx :=
  { m with cache := fun _ => none }

mutual

/-- `CoreMatcher.IsAncestor` (`matcher.go` lines 94-108). The Go `depth *int`
is a shared mutable counter; it is threaded through the whole search as the
third component of the result, so a decrement made inside one child's subtree
is seen by the later siblings, exactly as the shared pointer is in Go. -/
def isAncestor {Ctx : Type} (m : CoreMatcher Ctx) (ctx : Ctx) :
    Item → Option Int → Bool × CoreMatcher Ctx × Option Int
  | .mk _ children, some d =>
    if d = 0 then (false, m, some d)
    else searchChildren m ctx children (some (d - 1))
  | .mk _ children, none => searchChildren m ctx children none

/-- The child loop of `CoreMatcher.IsAncestor` (`matcher.go` lines 102-106),
with Go's short-circuit `IsCurrent(child) || IsAncestor(child, depth)`. -/
def searchChildren {Ctx : Type} (m : CoreMatcher Ctx) (ctx : Ctx) :
    List Item → Option Int → Bool × CoreMatcher Ctx × Option Int
  | [], depth => (false, m, depth)
  | c :: cs, depth =>
    let r := isCurrent m ctx c
    if r.1 then (true, r.2, depth)
    else
      let a := isAncestor r.2 ctx c depth
      if a.1 then (true, a.2.1, a.2.2)
      else searchChildren a.2.1 ctx cs a.2.2

end

mutual

/-- The strict descendants of an item, in depth-first pre-order: the node
set over which `IsAncestor` searches for a current item. -/
def descendants : Item → List Item
  | .mk _ children => descList children

def descList : List Item → List Item
  | [] => []
  | c :: cs => c :: (descendants c ++ descList cs)

end

/-- The verdict `IsCurrent` computes for an item from a given matcher state,
as a pure function (forced flag, then cache, then voter chain). -/
def cur {Ctx : Type} (m : CoreMatcher Ctx) (ctx : Ctx) (item : Item) : Bool :=
  match item.current with
  | some b => b
  | none =>
    match m.cache item with
    | some v => v
    | none => runVoters m.voters ctx item

theorem isCurrent_fst {Ctx : Type} (m : CoreMatcher Ctx) (ctx : Ctx) (item : Item) :
    (isCurrent m ctx item).1 = cur m ctx item := by
  unfold isCurrent cur
  cases item.current with
  | some b => rfl
  | none => cases m.cache item with
    | some v => rfl
    | none => rfl

theorem isCurrent_voters {Ctx : Type} (m : CoreMatcher Ctx) (ctx : Ctx) (item : Item) :
    (isCurrent m ctx item).2.voters = m.voters := by
  unfold isCurrent
  cases item.current with
  | some b => rfl
  | none => cases m.cache item with
    | some v => rfl
    | none => rfl

/-- Caching a freshly computed verdict does not change the verdict any item
would get from the matcher: `cur` is invariant along `isCurrent` calls. -/
theorem cur_isCurrent {Ctx : Type} (m : CoreMatcher Ctx) (ctx : Ctx) (item j : Item) :
    cur (isCurrent m ctx item).2 ctx j = cur m ctx j := by
  unfold isCurrent
  cases hc : item.current with
  | some b => rfl
  | none =>
    cases hmc : m.cache item with
    | some v => rfl
    | none =>
      show cur { m with cache := fun j => if j = item then _ else m.cache j } ctx j = cur m ctx j
      unfold cur
      cases hjc : j.current with
      | some b => rfl
      | none =>
        simp only
        by_cases hji : j = item
        · subst hji
          simp only [if_pos rfl, hmc]
          rfl
        · simp only [if_neg hji]

/-- Rebuild an item with updated non-recursive fields. -/
def Item.withData (i : Item) (f : ItemData → ItemData) : Item :=
  match i with
  | .mk d cs => .mk (f d) cs

/-- The Go `Option` type of `option.go` (`func(item *Item) error`), renamed
because `Option` is taken in Lean. A Go runtime panic raised by the mutator
is modelled as the `GoFailure.panicNilPointer` outcome. -/
def ItemOption : Type := Item → Except GoFailure Item

/-- `WithCurrent(current)` (`option.go` lines 95-104). For a non-nil
argument the Go code writes through the item's `Current` pointer
(`*item.Current = *current`): when `item.Current` is nil that write is a
nil-pointer dereference, modelled as the panic outcome; when it is non-nil
the pointed-to cell is overwritten. -/
def WithCurrent (current : Option Bool) : ItemOption := fun item =>
  match current with
  | none => .ok (item.withData fun d => { d with current := none })
  | some c =>
    match item.current with
    | none => .error .panicNilPointer
    | some _ => .ok (item.withData fun d => { d with current := some c })

/-- The option loop of `NewItem` (`item.go` lines 51-55): options run in
order, the first failure aborts. -/
def applyOptions : List ItemOption → Item → Except GoFailure Item
  | [], i => .ok i
  | o :: os, i =>
    match o i with
    | .error e => .error e
    | .ok i2 => applyOptions os i2

/-- `NewItem(name, options...)` (`item.go` lines 39-58): the default item —
empty bags, `Display` and `DisplayChildren` true, `Current` nil — with the
options applied in order. -/
def NewItem (name : String) (options : List ItemOption) : Except GoFailure Item :=
  applyOptions options (Item.mk ⟨name, "", "", 0, true, true, none, [], [], [], [], []⟩ [])

theorem any_cur_congr {Ctx : Type} {m m' : CoreMatcher Ctx} {ctx : Ctx}
    (h : ∀ j, cur m' ctx j = cur m ctx j) (l : List Item) :
    l.any (cur m' ctx) = l.any (cur m ctx) := by
  have : cur m' ctx = cur m ctx := funext h
  rw [this]

mutual

/-- With a nil depth pointer, `IsAncestor` answers exactly "some strict
descendant has verdict current", and only extends the cache consistently. -/
theorem anc_none {Ctx : Type} (ctx : Ctx) :
    ∀ (item : Item) (m : CoreMatcher Ctx), ∃ m' : CoreMatcher Ctx,
      isAncestor m ctx item none = ((descendants item).any (cur m ctx), m', none)
      ∧ m'.voters = m.voters ∧ ∀ j, cur m' ctx j = cur m ctx j
  | .mk d children, m => by
    have h := search_none ctx children m
    simpa only [isAncestor, descendants] using h

theorem search_none {Ctx : Type} (ctx : Ctx) :
    ∀ (cs : List Item) (m : CoreMatcher Ctx), ∃ m' : CoreMatcher Ctx,
      searchChildren m ctx cs none = ((descList cs).any (cur m ctx), m', none)
      ∧ m'.voters = m.voters ∧ ∀ j, cur m' ctx j = cur m ctx j
  | [], m => ⟨m, by simp [searchChildren, descList], rfl, fun _ => rfl⟩
  | c :: cs, m => by
    simp only [searchChildren, descList, List.any_cons, List.any_append]
    cases hr : (isCurrent m ctx c).1 with
    | true =>
      refine ⟨(isCurrent m ctx c).2, ?_, isCurrent_voters m ctx c, cur_isCurrent m ctx c⟩
      rw [← isCurrent_fst m ctx c, hr]
      simp
    | false =>
      rw [if_neg (by simp [hr])]
      obtain ⟨m2, ha, hv2, hc2⟩ := anc_none ctx c (isCurrent m ctx c).2
      rw [ha]
      have hdesc : (descendants c).any (cur (isCurrent m ctx c).2 ctx)
          = (descendants c).any (cur m ctx) := any_cur_congr (cur_isCurrent m ctx c) _
      cases hd : (descendants c).any (cur m ctx) with
      | true =>
        refine ⟨m2, ?_, by rw [hv2, isCurrent_voters], ?_⟩
        · rw [hdesc, hd]
          rw [← isCurrent_fst m ctx c, hr]
          simp
        · intro j
          rw [hc2 j, cur_isCurrent]
      | false =>
        rw [hdesc, hd]
        simp only [if_neg (Bool.false_ne_true)]
        obtain ⟨m3, hs, hv3, hc3⟩ := search_none ctx cs m2
        have hcs : (descList cs).any (cur m2 ctx) = (descList cs).any (cur m ctx) := by
          refine any_cur_congr (fun j => ?_) _
          rw [hc2 j, cur_isCurrent]
        refine ⟨m3, ?_, ?_, ?_⟩
        · rw [hs, hcs, ← isCurrent_fst m ctx c, hr]
          exact congrArg (fun b => (b, m3, (none : Option Int))) (Bool.false_or _).symm
        · rw [hv3, hv2, isCurrent_voters]
        · intro j
          rw [hc3 j, hc2 j, cur_isCurrent]

end

end Menu

namespace Internal

/-- One replacement step of Go `html.EscapeString` (it escapes exactly
`&`, `'`, `<`, `>`, `"`). -/
def escapeChar (c : Char) : String :=
  if c = '&' then "&amp;"
  else if c = Char.ofNat 39 then "&#39;"
  else if c = '<' then "&lt;"
  else if c = '>' then "&gt;"
  else if c = '"' then "&#34;"
  else String.singleton c

def escapeList : List Char → String
  | [] => ""
  | c :: cs => escapeChar c ++ escapeList cs

/-- Go `html.EscapeString`. -/
def escapeString (s : String) : String := escapeList s.data

/-- `internal.HTMLAttribute` (internal helpers file) at the string-valued
attribute typing used throughout the renderer: the `class=""` attribute is
skipped, every other attribute renders as `name="escaped value"`. (The Go
`bool` case of the `any`-typed original is outside this model: the renderer
only ever stores and reads string attribute values.) -/
def HTMLAttribute (name value : String) : String :=
  if name = "class" && value = "" then ""
  else name ++ "=\"" ++ escapeString value ++ "\""

/-- `internal.HTMLAttributes`: each non-empty rendered attribute is emitted
with a leading space. Go iterates the map in unspecified order; the model
uses the association list's order. -/
def HTMLAttributes : List (String × String) → String
  | [] => ""
  | (n, v) :: rest =>
    (if HTMLAttribute n v = "" then "" else " " ++ HTMLAttribute n v) ++ HTMLAttributes rest

/-- Go `strings.Join(elems, sep)`. -/
def join (sep : String) : List String → String
  | [] => ""
  | [x] => x
  | x :: y :: ys => x ++ sep ++ join sep (y :: ys)

/-- The whitespace class Go `strings.TrimSpace` strips, restricted to the
ASCII whitespace that can occur in this model's strings. -/
def isSpaceGo (c : Char) : Bool :=
  c = ' ' || c = '\t' || c = '\n' || c = '\r' || c = Char.ofNat 11 || c = Char.ofNat 12

/-- Go `strings.TrimSpace`. -/
def trimSpace (s : String) : String :=
  String.mk (((s.data.dropWhile isSpaceGo).reverse.dropWhile isSpaceGo).reverse)

/-- `internal.HTMLClasses`: join with single spaces, trim. -/
def HTMLClasses (classes : List String) : String := trimSpace (join " " classes)

end Internal

namespace Renderer

open Menu

/-- The renderer `Options` struct (list renderer sources), fields in source
order. The two optional depth budgets are `Option Int` for Go's `*int`;
`Extras` is modelled at the `bool` typing under which the renderer reads it
(`options.Extra("compressed", false).(bool)`). -/
structure Options where
  depth : Option Int
  matchingDepth : Option Int
  currentClass : String
  ancestorClass : String
  firstClass : String
  lastClass : String
  leafClass : String
  branchClass : String
  currentAsLink : Bool
  allowSafeLabels : Bool
  clearMatcher : Bool
  extras : List (String × Bool)
deriving DecidableEq, Repr

/-- `Options.IsStop`: the depth budget is present and exhausted. -/
def Options.isStop (o : Options) : Bool :=
  match o.depth with
  | some d => d ≤ 0
  | none => false

/-- `Options.SubDepth`: decrement the depth budget if present. -/
def Options.subDepth (o : Options) : Options :=
  { o with depth := o.depth.map (fun d => d - 1) }

/-- `Options.SubMatchingDepth`: decrement the matching-depth budget if
present and positive. -/
def Options.subMatchingDepth (o : Options) : Options :=
  { o with matchingDepth :=
      match o.matchingDepth with
      | some d => some (if 0 < d then d - 1 else d)
      | none => none }

/-- `Options.Copy`: Go deep-copies the two depth pointers and clones the
extras map so the copy aliases nothing; for immutable Lean values that deep
copy is the value itself. -/
def Options.copy (o : Options) : Options := o

/-- `Options.Extra(name, def)` at the `bool` typing used by the renderer. -/
def Options.extra (o : Options) (name : String) (deflt : Bool) : Bool :=
  match o.extras.lookup name with
  | some v => v
  | none => deflt

/-- The Go renderer `Option` type (`func(*Options)`, `renderer/option.go`),
renamed from `Option`; a nil-pointer write panic is the only failure. -/
def RendererOption : Type := Options → Except GoFailure Options

/-- `WithDepth(depth)` (`renderer/option.go` lines 23-31): a nil argument
clears the field, otherwise the Go code writes through the options' `Depth`
pointer (`*options.Depth = *depth`) — a nil-pointer dereference when the
field is nil, an overwrite of the pointed-to cell when it is not. -/
def WithDepth (depth : Option Int) : RendererOption := fun options =>
  match depth with
  | none => .ok { options with depth := none }
  | some d =>
    match options.depth with
    | none => .error .panicNilPointer
    | some _ => .ok { options with depth := some d }

/-- `WithMatchingDepth(matchingDepth)` (`renderer/option.go` lines 39-47),
same write-through-pointer shape as `WithDepth`. -/
def WithMatchingDepth (matchingDepth : Option Int) : RendererOption := fun options =>
  match matchingDepth with
  | none => .ok { options with matchingDepth := none }
  | some d =>
    match options.matchingDepth with
    | none => .error .panicNilPointer
    | some _ => .ok { options with matchingDepth := some d }

/-- `Options.Apply`: run the options in order (a Go panic aborts). -/
def applyRendererOptions : List RendererOption → Options → Except GoFailure Options
  | [], o => .ok o
  | f :: fs, o =>
    match f o with
    | .error e => .error e
    | .ok o2 => applyRendererOptions fs o2

/-- `NewOptions(options...)`: the defaults of the source (`current`,
`current-ancestor`, `first`, `last` classes, `CurrentAsLink` and
`ClearMatcher` true, both depth budgets nil, empty extras) with the given
options applied. -/
def NewOptions (options : List RendererOption) : Except GoFailure Options :=
  applyRendererOptions options
    { depth := none, matchingDepth := none, currentClass := "current",
      ancestorClass := "current-ancestor", firstClass := "first", lastClass := "last",
      leafClass := "", branchClass := "", currentAsLink := true,
      allowSafeLabels := false, clearMatcher := true, extras := [] }

def spaces (n : Nat) : String := String.mk (List.replicate n ' ')

/-- `ListRenderer.format`: verbatim in compact ("compressed") mode,
otherwise indented by the level-dependent spacing with a newline appended.
`level` is a `Nat` (Go levels are never negative); the `li` spacing
`level*4 - 2` truncates at zero where Go would panic on a negative repeat
count, a case no render call site reaches (list items always sit at level
≥ 1). -/
def format (content typ : String) (level : Nat) (options : Options) : String :=
  if options.extra "compressed" false then content
  else
    let spacing :=
      if typ = "ul" || typ = "link" then level * 4
      else if typ = "li" then level * 4 - 2
      else 0
    spaces spacing ++ content ++ "\n"

/-- `ListRenderer.renderLabel`: the raw label when trusted labels are
allowed and the item marks its label safe, the HTML-escaped label
otherwise. -/
def renderLabel (item : Item) (options : Options) : String :=
  if options.allowSafeLabels && item.extra "safe_label" false then item.label
  else Internal.escapeString item.label

/-- `ListRenderer.renderLinkElement`. -/
def renderLinkElement (item : Item) (options : Options) : String :=
  "<a href=\"" ++ Internal.escapeString item.uri ++ "\""
    ++ Internal.HTMLAttributes item.linkAttributes ++ ">"
    ++ renderLabel item options ++ "</a>"

/-- `ListRenderer.renderSpanElement`. -/
def renderSpanElement (item : Item) (options : Options) : String :=
  "<span" ++ Internal.HTMLAttributes item.labelAttributes ++ ">"
    ++ renderLabel item options ++ "</span>"

/-- `ListRenderer.renderLink`, threading the matcher: Go short-circuits, so
the matcher is consulted only when the URI is non-empty. -/
def renderLink {Ctx : Type} (m : CoreMatcher Ctx) (ctx : Ctx) (item : Item)
    (level : Nat) (options : Options) : String × CoreMatcher Ctx :=
  if item.uri = "" then
    (format (renderSpanElement item options) "link" level options, m)
  else if !(isCurrent m ctx item).1 || options.currentAsLink then
    (format (renderLinkElement item options) "link" level options, (isCurrent m ctx item).2)
  else
    (format (renderSpanElement item options) "link" level options, (isCurrent m ctx item).2)

/-- Go map update `attributes["class"] = v` on a cloned bag: replace the
key in place if present, append otherwise. -/
def setAttr (m : List (String × String)) (key value : String) : List (String × String) :=
  if m.any (fun p => p.1 = key) then
    m.map (fun p => if p.1 = key then (key, value) else p)
  else m ++ [(key, value)]

/-- The branch-or-leaf class step of `ListRenderer.renderItem` (step (5) of
the class assembly): the branch class when the item is not depth-stopped,
has a displayed child and displays its children; the leaf class when it is
depth-stopped or has no displayed child; nothing in the remaining case. -/
def branchLeafClasses (options : Options) (item : Item) : List String :=
  if !options.isStop && item.hasChildren then
    (if item.displayChildren then [options.branchClass] else [])
  else [options.leafClass]

/-- The current-or-ancestor class step of `renderItem` (source lines
128-132): `IsCurrent` decides; only when it answers false is `IsAncestor`
consulted (Go's short-circuit), draining the shared `MatchingDepth`
counter, which the updated options carry onward. Returns the extended class
list, the updated matcher and the updated options. -/
def currentAncestorStep {Ctx : Type} (m : CoreMatcher Ctx) (ctx : Ctx) (item : Item)
    (classes : List String) (opts : Options) :
    List String × CoreMatcher Ctx × Options :=
  if (isCurrent m ctx item).1 then
    (classes ++ [opts.currentClass], (isCurrent m ctx item).2, opts)
  else
    ((if (isAncestor (isCurrent m ctx item).2 ctx item opts.matchingDepth).1 then
        classes ++ [opts.ancestorClass]
      else classes),
     (isAncestor (isCurrent m ctx item).2 ctx item opts.matchingDepth).2.1,
     { opts with
         matchingDepth :=
           (isAncestor (isCurrent m ctx item).2 ctx item opts.matchingDepth).2.2 })

mutual

/-- `ListRenderer.renderItem`, with its nested `renderList` and
`renderChildren` calls inlined (see `renderList` and `renderChildren` below
for the wrappers, proved equal to the inlined bodies by `rfl`-unfolding):
the inlining makes the recursion structural over the item tree, so concrete
renders evaluate in the kernel. `siblings`/`idx` supply the parent's
children slice and the item's position in it (the Go code reads them
through `item.Parent`), `level` is `item.Level()`. -/
def renderItem {Ctx : Type} (m : CoreMatcher Ctx) (ctx : Ctx) (siblings : List Item)
    (idx : Nat) (level : Nat) : Item → Options → String × CoreMatcher Ctx
  | item@(.mk _ children), opts =>
    if !item.display then ("", m)
    else
      let classes := [item.attribute "class" ""]
      let step := currentAncestorStep m ctx item classes opts
      let classes1 := step.1
      let m2 := step.2.1
      let opts1 := step.2.2
      let classes2 := classes1 ++ (if actsLikeFirst siblings idx item then [opts1.firstClass] else [])
      let classes3 := classes2 ++ (if actsLikeLast siblings idx item then [opts1.lastClass] else [])
      let classes4 := classes3 ++ branchLeafClasses opts1 item
      let attrs := setAttr item.attributes "class" (Internal.HTMLClasses classes4)
      let s1 := format ("<li" ++ Internal.HTMLAttributes attrs ++ ">") "li" level opts1
      let lk := renderLink m2 ctx item level opts1
      let childClasses := [item.childrenAttribute "class" "", "menu-level-" ++ toString level]
      let cattrs := setAttr item.childrenAttributes "class" (Internal.HTMLClasses childClasses)
      let sub :=
        if opts1.isStop || !item.hasChildren || !item.displayChildren then ("", lk.2)
        else
          let u1 := format ("<ul" ++ Internal.HTMLAttributes cattrs ++ ">") "ul" level opts1
          let opts2 := (opts1.subDepth).subMatchingDepth
          let inner := renderItems lk.2 ctx children 0 (level + 1) children opts2
          (u1 ++ inner.1 ++ format "</ul>" "ul" level opts1, inner.2)
      (s1 ++ lk.1 ++ sub.1 ++ format "</li>" "li" level opts1, sub.2)

/-- The child loop of `ListRenderer.renderChildren`: each child is rendered
with a fresh copy of the (already decremented) options, so sibling subtrees
cannot leak budget state into each other. -/
def renderItems {Ctx : Type} (m : CoreMatcher Ctx) (ctx : Ctx) (siblings : List Item)
    (idx : Nat) (level : Nat) : List Item → Options → String × CoreMatcher Ctx
  | [], _ => ("", m)
  | c :: cs, opts =>
    let one := renderItem m ctx siblings idx level c opts.copy
    let rest := renderItems one.2 ctx siblings (idx + 1) level cs opts
    (one.1 ++ rest.1, rest.2)

end

/-- `ListRenderer.renderChildren` (wrapper over the structural loop):
decrement both budgets once, then render each child at the next level. -/
def renderChildren {Ctx : Type} (m : CoreMatcher Ctx) (ctx : Ctx) (item : Item)
    (level : Nat) (options : Options) : String × CoreMatcher Ctx :=
  let opts := (options.subDepth).subMatchingDepth
  renderItems m ctx item.children 0 (level + 1) item.children opts

/-- `ListRenderer.renderList`: empty output when the depth budget is
exhausted, the item has no displayed child, or `DisplayChildren` is false;
otherwise the `<ul>` wrapper around the rendered children. `level` is
`item.Level()`. -/
def renderList {Ctx : Type} (m : CoreMatcher Ctx) (ctx : Ctx) (item : Item)
    (attributes : List (String × String)) (level : Nat) (options : Options) :
    String × CoreMatcher Ctx :=
  if options.isStop || !item.hasChildren || !item.displayChildren then ("", m)
  else
    let u1 := format ("<ul" ++ Internal.HTMLAttributes attributes ++ ">") "ul" level options
    let inner := renderChildren m ctx item level options
    (u1 ++ inner.1 ++ format "</ul>" "ul" level options, inner.2)

/-- Specification-side comparator (spec §8, depth budget): one child of a
depth-budget-1 list, rendered as a depth-stopped leaf — same classes,
attributes, link and matcher traffic as `renderItem`, but with the leaf
class in step (5) and no nested child list at all. -/
def oneLevelItem {Ctx : Type} (m : CoreMatcher Ctx) (ctx : Ctx) (siblings : List Item)
    (idx : Nat) (level : Nat) (item : Item) (opts : Options) : String × CoreMatcher Ctx :=
  if !item.display then ("", m)
  else
    let classes := [item.attribute "class" ""]
    let step := currentAncestorStep m ctx item classes opts
    let classes1 := step.1
    let m2 := step.2.1
    let opts1 := step.2.2
    let classes2 := classes1 ++ (if actsLikeFirst siblings idx item then [opts1.firstClass] else [])
    let classes3 := classes2 ++ (if actsLikeLast siblings idx item then [opts1.lastClass] else [])
    let classes4 := classes3 ++ [opts1.leafClass]
    let attrs := setAttr item.attributes "class" (Internal.HTMLClasses classes4)
    let s1 := format ("<li" ++ Internal.HTMLAttributes attrs ++ ">") "li" level opts1
    let lk := renderLink m2 ctx item level opts1
    (s1 ++ lk.1 ++ format "</li>" "li" level opts1, lk.2)

/-- Specification-side comparator: the loop over the one level of rendered
children. -/
def oneLevelItems {Ctx : Type} (m : CoreMatcher Ctx) (ctx : Ctx) (siblings : List Item)
    (idx : Nat) (level : Nat) : List Item → Options → String × CoreMatcher Ctx
  | [], _ => ("", m)
  | c :: cs, opts =>
    let one := oneLevelItem m ctx siblings idx level c opts.copy
    let rest := oneLevelItems one.2 ctx siblings (idx + 1) level cs opts
    (one.1 ++ rest.1, rest.2)

/-- Specification-side comparator (spec §8, depth budget): a list rendered
with a depth budget of exactly one level of children: the `<ul>` wrapper
around the children, each rendered as a leaf with no grandchild list. -/
def oneLevelList {Ctx : Type} (m : CoreMatcher Ctx) (ctx : Ctx) (item : Item)
    (attributes : List (String × String)) (level : Nat) (options : Options) :
    String × CoreMatcher Ctx :=
  if !item.hasChildren || !item.displayChildren then ("", m)
  else
    let u1 := format ("<ul" ++ Internal.HTMLAttributes attributes ++ ">") "ul" level options
    let opts2 := (options.subDepth).subMatchingDepth
    let inner := oneLevelItems m ctx item.children 0 (level + 1) item.children opts2
    (u1 ++ inner.1 ++ format "</ul>" "ul" level options, inner.2)

end Renderer

namespace Heap

/-- A menu item as a heap node, for the mutation/aliasing claims: the
scalar fields of the Go `Item` struct, the five `map[string]any` bags as
numbered references (two nodes alias a bag exactly when they store the same
reference), the `Parent` back-pointer and the `Children` slice as node
references. -/
structure Node where
  name : String
  uri : String
  label : String
  position : Int
  displayChildren : Bool
  display : Bool
  current : Option Bool
  attributes : Nat
  linkAttributes : Nat
  childrenAttributes : Nat
  labelAttributes : Nat
  extras : Nat
  parent : Option Nat
  children : List Nat
deriving DecidableEq, Repr

/-- The node heap: every reference resolves to a node (Go pointers into
live memory). -/
abbrev HeapM : Type := Nat → Node

/-- Write one node. -/
def update (h : HeapM) (i : Nat) (n : Node) : HeapM :=
  fun j => if j = i then n else h j

/-- `ErrItemBelongsToAnotherMenu` (`item.go`). -/
inductive MenuError where
  | errItemBelongsToAnotherMenu
deriving DecidableEq, Repr

/-- `Item.AddChild` (`item.go` lines 183-201) in the `*Item` branch of its
`switch` (the branch every ownership claim is about; the other branch
synthesizes a brand-new item from a formatted value and cannot hit the
ownership check). If the child already has a parent the attach fails with
`ErrItemBelongsToAnotherMenu` and the heap is untouched; otherwise the
child's `Parent` is set first and the child is then appended to the
parent's `Children`, in the source's write order. -/
def addChild (h : HeapM) (parentId childId : Nat) : HeapM × Except MenuError Nat :=
  match (h childId).parent with
  | some _ => (h, .error .errItemBelongsToAnotherMenu)
  | none =>
    let h1 := update h childId { h childId with parent := some parentId }
    let h2 := update h1 parentId
      { h1 parentId with children := (h1 parentId).children ++ [childId] }
    (h2, .ok childId)

/-- Failures of `Item.Copy`: a propagated attach error, or the model's fuel
bound (never reached when the fuel exceeds the subtree height). -/
inductive CopyError where
  | outOfFuel
  | attach (e : MenuError)
deriving DecidableEq, Repr

/-- `Item.Copy` (`item.go` lines 158-174): `item := *i` copies the struct —
so the five bag references are carried over unchanged (the Go maps are
shared, not cloned) — then `Parent` is cleared and `Children` reset, the
root is (freshly) allocated, and every child is recursively copied and
re-attached through `AddChild`, any failure propagating. The fold carries
the first failure past the remaining children, which is observationally the
Go early return. -/
def copy : Nat → HeapM × Nat → Nat → (HeapM × Nat) × Except CopyError Nat
  | 0, st, _ => (st, .error .outOfFuel)
  | fuel + 1, (h, next), i =>
    let orig := h i
    let rootId := next
    let st0 := (update h rootId { orig with parent := none, children := [] }, next + 1)
    orig.children.foldl
      (fun acc c =>
        match acc with
        | (st, .error e) => (st, .error e)
        | ((h1, n1), .ok r) =>
          match copy fuel (h1, n1) c with
          | (st1, .error e) => (st1, .error e)
          | ((h2, n2), .ok cid) =>
            match addChild h2 rootId cid with
            | (h3, .error e) => ((h3, n2), .error (.attach e))
            | (h3, .ok _) => ((h3, n2), .ok r))
      (st0, .ok rootId)

/-- The loop body of `Copy` over one child (named so the fold in `copy` can
be reasoned about; `copy (fuel+1)` unfolds to a fold of this step — see
`copy_succ`): copy the child, then re-attach it under the copied root,
propagating either failure. -/
def copyFoldStep (fuel rootId : Nat) (acc : (HeapM × Nat) × Except CopyError Nat)
    (c : Nat) : (HeapM × Nat) × Except CopyError Nat :=
  match acc with
  | (st, .error e) => (st, .error e)
  | ((h1, n1), .ok r) =>
    match copy fuel (h1, n1) c with
    | (st1, .error e) => (st1, .error e)
    | ((h2, n2), .ok cid) =>
      match addChild h2 rootId cid with
      | (h3, .error e) => ((h3, n2), .error (.attach e))
      | (h3, .ok _) => ((h3, n2), .ok r)

/-- The subtree rooted at `i` is well formed within `fuel` levels and all
its node references lie in `[lo, hi)`. -/
def subtreeIn : Nat → HeapM → Nat → Nat → Nat → Bool
  | 0, _, _, _, _ => false
  | fuel + 1, h, i, lo, hi =>
    decide (lo ≤ i) && decide (i < hi)
      && (h i).children.all (fun c => subtreeIn fuel h c lo hi)

/-- The payload-and-structure skeleton of a subtree: scalar fields, the
five bag references, and the children recursively — everything `Copy`
preserves (node identity and the `Parent` pointer excluded). -/
inductive Skel : Type where
  | mk (name uri label : String) (position : Int) (displayChildren display : Bool)
       (current : Option Bool)
       (attributes linkAttributes childrenAttributes labelAttributes extras : Nat)
       (children : List Skel)

/-- Collect a list of options, failing on the first `none`. -/
def optList {α : Type} : List (Option α) → Option (List α)
  | [] => some []
  | some x :: xs =>
    match optList xs with
    | some l => some (x :: l)
    | none => none
  | none :: _ => none

/-- Read the skeleton of the subtree rooted at `i`, to depth `fuel`. -/
def skel : Nat → HeapM → Nat → Option Skel
  | 0, _, _ => none
  | fuel + 1, h, i =>
    match optList ((h i).children.map (skel fuel h)) with
    | some cs =>
      some (.mk (h i).name (h i).uri (h i).label (h i).position
        (h i).displayChildren (h i).display (h i).current
        (h i).attributes (h i).linkAttributes (h i).childrenAttributes
        (h i).labelAttributes (h i).extras cs)
    | none => none

end Heap

-- Fixtures for concrete witnesses and counterexamples. -----------------

/-- Fixture: renderer options with the `NewOptions` defaults plus visible
leaf/branch classes and no depth budgets. -/
def fixtureOptions : Renderer.Options :=
  { depth := none, matchingDepth := none, currentClass := "current",
    ancestorClass := "current-ancestor", firstClass := "first", lastClass := "last",
    leafClass := "leaf", branchClass := "branch", currentAsLink := true,
    allowSafeLabels := false, clearMatcher := true, extras := [] }

/-- Fixture: `fixtureOptions` with the compact-output extra flag set. -/
def fixtureOptionsCompressed : Renderer.Options :=
  { fixtureOptions with extras := [("compressed", true)] }

/-- Fixture: an item that displays, has one displayed child, but has
`DisplayChildren = false`. -/
def fixtureHiddenChildren : Menu.Item :=
  Menu.Item.mk ⟨"p", "", "", 0, false, true, none, [], [], [], [], []⟩
    [Menu.mkItem "c" none []]

/-- Fixture: a two-node tree whose child's label contains a newline. -/
def fixtureNewlineTree : Menu.Item :=
  Menu.Item.mk ⟨"root", "", "", 0, true, true, none, [], [], [], [], []⟩
    [Menu.Item.mk ⟨"child", "", "a\nb", 0, true, true, none, [], [], [], [], []⟩ []]

/-- Fixture: a heap node with no parent, no children and the five bags at
references 10-14. -/
def fixtureBagNode : Heap.Node :=
  { name := "a", uri := "", label := "", position := 0, displayChildren := true,
    display := true, current := none, attributes := 10, linkAttributes := 11,
    childrenAttributes := 12, labelAttributes := 13, extras := 14,
    parent := none, children := [] }

/-- Fixture: every reference resolves to `fixtureBagNode`. -/
def fixtureBagHeap : Heap.HeapM := fun _ => fixtureBagNode

/-- Fixture: node 1 is already attached under node 0. -/
def fixtureParentedHeap : Heap.HeapM := fun j =>
  if j = 1 then { fixtureBagNode with parent := some 0 } else fixtureBagNode

/-- Fixture: node 0 owns child node 1 (a well-formed two-node subtree whose
references lie below 2). -/
def fixtureTwoNodeHeap : Heap.HeapM := fun j =>
  if j = 0 then { fixtureBagNode with children := [1] }
  else { fixtureBagNode with parent := some 0 }

-- Helper lemmas ------------------------------------------------------

theorem str_append_empty (s : String) : s ++ "" = s := by
  cases s with
  | mk l =>
    show String.mk (l ++ []) = String.mk l
    rw [List.append_nil]

theorem isStop_matchingDepth (o : Renderer.Options) (md : Option Int) :
    Renderer.Options.isStop { o with matchingDepth := md } = o.isStop := rfl

theorem branchLeaf_stopped (o : Renderer.Options) (item : Menu.Item)
    (h : o.isStop = true) :
    Renderer.branchLeafClasses o item = [o.leafClass] := by
  simp [Renderer.branchLeafClasses, h]

theorem cas_extra {Ctx : Type} (m : Menu.CoreMatcher Ctx) (ctx : Ctx)
    (item : Menu.Item) (classes : List String) (opts : Renderer.Options)
    (name : String) (deflt : Bool) :
    ((Renderer.currentAncestorStep m ctx item classes opts).2.2).extra name deflt
      = opts.extra name deflt := by
  unfold Renderer.currentAncestorStep
  split <;> rfl

theorem cas_isStop {Ctx : Type} (m : Menu.CoreMatcher Ctx) (ctx : Ctx)
    (item : Menu.Item) (classes : List String) (opts : Renderer.Options) :
    ((Renderer.currentAncestorStep m ctx item classes opts).2.2).isStop
      = opts.isStop := by
  unfold Renderer.currentAncestorStep
  split <;> rfl

theorem renderItem_stopped {Ctx : Type} (m : Menu.CoreMatcher Ctx) (ctx : Ctx)
    (siblings : List Menu.Item) (idx level : Nat) (item : Menu.Item)
    (opts : Renderer.Options) (h : opts.isStop = true) :
    Renderer.renderItem m ctx siblings idx level item opts
      = Renderer.oneLevelItem m ctx siblings idx level item opts := by
  cases item with
  | mk d children =>
    simp only [Renderer.renderItem, Renderer.oneLevelItem]
    cases hdisp : (Menu.Item.mk d children).display with
    | false => simp [hdisp]
    | true =>
      simp only [hdisp, Bool.not_true, Bool.false_eq_true, if_false]
      have hstop1 : ((Renderer.currentAncestorStep m ctx (Menu.Item.mk d children)
          [(Menu.Item.mk d children).attribute "class" ""] opts).2.2).isStop = true := by
        rw [cas_isStop]
        exact h
      rw [branchLeaf_stopped _ _ hstop1]
      simp only [hstop1, Bool.true_or, if_true, str_append_empty]

theorem renderItems_stopped {Ctx : Type} (ctx : Ctx) (siblings : List Menu.Item)
    (level : Nat) (cs : List Menu.Item) (opts : Renderer.Options)
    (h : opts.isStop = true) :
    ∀ (m : Menu.CoreMatcher Ctx) (idx : Nat),
      Renderer.renderItems m ctx siblings idx level cs opts
        = Renderer.oneLevelItems m ctx siblings idx level cs opts := by
  induction cs with
  | nil => intro m idx; rfl
  | cons c cs ih =>
    intro m idx
    simp only [Renderer.renderItems, Renderer.oneLevelItems, Renderer.Options.copy,
      renderItem_stopped _ _ _ _ _ _ _ h, ih]

-- ===================================================================
-- Claim theorems
-- ===================================================================

open Menu

/-- C1: `CoreMatcher.IsAncestor(ctx, item, depth)` returns true iff some
depth-bounded descendant of `item` is current or is itself (recursively) an
ancestor of a current item. The depth pointer is a single shared mutable
counter, threaded through the entire search: a zero counter makes the whole
subtree answer `false` immediately, and a non-zero counter is decremented
exactly once on entry and then shared (as the threaded third component)
across all children — not reset per traversed path. With a nil counter the
traversal is unbounded: the result is true iff some strict descendant
satisfies `IsCurrent`. -/
theorem C1_isAncestor_shared_depth_budget {Ctx : Type} (ctx : Ctx)
    (m : CoreMatcher Ctx) (item : Item) :
    ((isAncestor m ctx item none).1 = true
        ↔ ∃ t ∈ descendants item, (isCurrent m ctx t).1 = true)
    ∧ isAncestor m ctx item (some 0) = (false, m, some 0)
    ∧ ∀ d : Int, d ≠ 0 →
        isAncestor m ctx item (some d) = searchChildren m ctx item.children (some (d - 1)) := by
  refine ⟨?_, ?_, ?_⟩
  · obtain ⟨m', h, _, _⟩ := anc_none ctx item m
    rw [h]
    simp [List.any_eq_true, isCurrent_fst]
  · cases item with
    | mk d cs => simp [isAncestor]
  · intro d hd
    cases item with
    | mk dt cs => simp [isAncestor, hd, Item.children]

/-- Witness for C1 at a concrete matcher, item and non-zero budget. -/
theorem C1_isAncestor_shared_depth_budget_witness :
    isAncestor (NewCoreMatcher ([] : List (Voter Unit))) ()
        (mkItem "root" none [mkItem "c" (some true) []]) (some 5)
      = searchChildren (NewCoreMatcher ([] : List (Voter Unit))) ()
        (mkItem "root" none [mkItem "c" (some true) []]).children (some (5 - 1)) :=
  (C1_isAncestor_shared_depth_budget () (NewCoreMatcher [])
    (mkItem "root" none [mkItem "c" (some true) []])).2.2 5 (by decide)

/-- C2: when `item.Current` is non-nil, `CoreMatcher.IsCurrent` returns
exactly that flag — also when the flag is explicitly `false` — for every
matcher (so regardless of registered voters and of cache contents), and
returns the matcher unchanged (the cache is neither consulted nor
populated). -/
theorem C2_forced_current_wins {Ctx : Type} (ctx : Ctx) (m : CoreMatcher Ctx)
    (item : Item) (b : Bool) (h : item.current = some b) :
    isCurrent m ctx item = (b, m) := by
  simp [isCurrent, h]

/-- Witness for C2: an explicitly-false flag beats a voter that answers
true, and the matcher comes back unchanged. -/
theorem C2_forced_current_wins_witness :
    isCurrent (NewCoreMatcher [(fun _ _ => some true : Voter Unit)]) ()
        (mkItem "a" (some false) [])
      = (false, NewCoreMatcher [(fun _ _ => some true : Voter Unit)]) :=
  C2_forced_current_wins () (NewCoreMatcher [fun _ _ => some true])
    (mkItem "a" (some false) []) false rfl

/-- C7: calling `IsCurrent` again on the same item — with the cache produced
by the first call, under any voters (in particular voters whose answer has
changed) and any context — returns the first call's value, and returns the
matcher unchanged, so every further repetition returns that value too until
`Clear()` replaces the cache. -/
theorem C7_isCurrent_sticky_until_clear {Ctx : Type} (ctx ctx2 : Ctx)
    (m : CoreMatcher Ctx) (voters2 : List (Voter Ctx)) (item : Item) :
    isCurrent { voters := voters2, cache := (isCurrent m ctx item).2.cache } ctx2 item
      = ((isCurrent m ctx item).1,
         { voters := voters2, cache := (isCurrent m ctx item).2.cache }) := by
  unfold isCurrent
  cases hc : item.current with
  | some b => rfl
  | none =>
    cases hm : m.cache item with
    | some v => simp [hm]
    | none => simp [hm]

/-- C9: `NewItem(name, WithCurrent(b))` with a non-nil `b` dereferences the
freshly constructed item's nil `Current` pointer (`*item.Current = *current`
in `option.go`) for every name and boolean — a Go runtime panic: it neither
sets `Current` nor returns an ordinary error value, and this faulting branch
is reached on every such input. -/
theorem C9_newItem_withCurrent_nil_panic (name : String) (b : Bool) :
    NewItem name [WithCurrent (some b)] = .error .panicNilPointer := rfl

/-- C10: applying `WithDepth`/`WithMatchingDepth` with a non-nil argument
to options whose corresponding field is nil — in particular to the
`NewOptions` defaults, which leave both fields nil — writes through the nil
field pointer (`*options.Depth = *depth`), a Go runtime panic; the write
succeeds only when the field already holds a non-nil pointer. -/
theorem C10_withDepth_nil_panic (d : Int) (o : Renderer.Options) :
    (o.depth = none → Renderer.WithDepth (some d) o = .error .panicNilPointer)
    ∧ (o.matchingDepth = none →
        Renderer.WithMatchingDepth (some d) o = .error .panicNilPointer)
    ∧ Renderer.NewOptions [Renderer.WithDepth (some d)] = .error .panicNilPointer
    ∧ Renderer.NewOptions [Renderer.WithMatchingDepth (some d)] = .error .panicNilPointer
    ∧ (∀ e : Int, o.depth = some e →
        Renderer.WithDepth (some d) o = .ok { o with depth := some d })
    ∧ (∀ e : Int, o.matchingDepth = some e →
        Renderer.WithMatchingDepth (some d) o = .ok { o with matchingDepth := some d }) := by
  refine ⟨fun h => ?_, fun h => ?_, rfl, rfl, fun e h => ?_, fun e h => ?_⟩
  · simp [Renderer.WithDepth, h]
  · simp [Renderer.WithMatchingDepth, h]
  · simp [Renderer.WithDepth, h]
  · simp [Renderer.WithMatchingDepth, h]

/-- Witness for C10 at concrete options: the nil-depth fault and the
non-nil success case. -/
theorem C10_withDepth_nil_panic_witness :
    Renderer.WithDepth (some 3) fixtureOptions = .error .panicNilPointer
    ∧ Renderer.WithDepth (some 3) { fixtureOptions with depth := some 7 }
        = .ok { fixtureOptions with depth := some 3 } :=
  ⟨(C10_withDepth_nil_panic 3 fixtureOptions).1 rfl,
   (C10_withDepth_nil_panic 3 { fixtureOptions with depth := some 7 }).2.2.2.2.1 7 rfl⟩

/-- C3 as stated is false: the counterexample item displays, is not
depth-stopped and has a displayed child, but sets `DisplayChildren = false`
— `renderItem`'s step-(5) class computation appends neither the branch
class nor the leaf class. -/
theorem C3_branch_leaf_counterexample :
    Renderer.branchLeafClasses fixtureOptions fixtureHiddenChildren
        ≠ [fixtureOptions.branchClass]
    ∧ Renderer.branchLeafClasses fixtureOptions fixtureHiddenChildren
        ≠ [fixtureOptions.leafClass]
    ∧ Renderer.branchLeafClasses fixtureOptions fixtureHiddenChildren = []
    ∧ fixtureOptions.isStop = false
    ∧ fixtureHiddenChildren.hasChildren = true
    ∧ fixtureHiddenChildren.displayChildren = false := by
  refine ⟨by decide, by decide, by decide, by decide, by decide, by decide⟩

/-- C3 amended: `renderItem`'s step-(5) class computation appends the
branch class exactly when the item is not depth-stopped, has a displayed
child and has `DisplayChildren = true`; the leaf class exactly when it is
depth-stopped or has no displayed child; and nothing (neither class) when
it is not depth-stopped and has a displayed child but `DisplayChildren =
false` — never both classes. -/
theorem C3_branch_leaf_classes (options : Renderer.Options) (item : Menu.Item) :
    (options.isStop = false → item.hasChildren = true → item.displayChildren = true →
        Renderer.branchLeafClasses options item = [options.branchClass])
    ∧ ((options.isStop = true ∨ item.hasChildren = false) →
        Renderer.branchLeafClasses options item = [options.leafClass])
    ∧ (options.isStop = false → item.hasChildren = true → item.displayChildren = false →
        Renderer.branchLeafClasses options item = [])
    ∧ (Renderer.branchLeafClasses options item).length ≤ 1 := by
  refine ⟨fun h1 h2 h3 => ?_, fun h => ?_, fun h1 h2 h3 => ?_, ?_⟩
  · simp [Renderer.branchLeafClasses, h1, h2, h3]
  · rcases h with h | h <;> simp [Renderer.branchLeafClasses, h]
  · simp [Renderer.branchLeafClasses, h1, h2, h3]
  · unfold Renderer.branchLeafClasses
    split
    · split <;> simp
    · simp

/-- Witness for C3's amended statement: branch on a displayed parent, leaf
on a stopped item, nothing on the `DisplayChildren = false` parent. -/
theorem C3_branch_leaf_classes_witness :
    Renderer.branchLeafClasses fixtureOptions (Menu.mkItem "p" none [Menu.mkItem "c" none []])
        = [fixtureOptions.branchClass]
    ∧ Renderer.branchLeafClasses fixtureOptions fixtureHiddenChildren = [] :=
  ⟨(C3_branch_leaf_classes fixtureOptions (Menu.mkItem "p" none [Menu.mkItem "c" none []])).1
      rfl (by decide) rfl,
   (C3_branch_leaf_classes fixtureOptions fixtureHiddenChildren).2.2.1 rfl (by decide) rfl⟩

/-- C5: for every tree, matcher state and options, a depth budget of 0 at a
node makes `renderList` produce the empty string for that node's children
(and leaves the matcher untouched); a depth budget of 1 renders exactly one
level of children — each child a depth-stopped leaf — and emits no
grandchild lists, which is the specification-side `oneLevelList`. -/
theorem C5_depth_budget {Ctx : Type} (ctx : Ctx) (m : Menu.CoreMatcher Ctx)
    (item : Menu.Item) (attrs : List (String × String)) (level : Nat)
    (options : Renderer.Options) :
    (options.depth = some 0 →
        Renderer.renderList m ctx item attrs level options = ("", m))
    ∧ (options.depth = some 1 →
        Renderer.renderList m ctx item attrs level options
          = Renderer.oneLevelList m ctx item attrs level options) := by
  constructor
  · intro h
    simp [Renderer.renderList, Renderer.Options.isStop, h]
  · intro h
    have hstop : options.isStop = false := by
      simp [Renderer.Options.isStop, h]
    have h2 : ((options.subDepth).subMatchingDepth).isStop = true := by
      simp [Renderer.Options.subDepth, Renderer.Options.subMatchingDepth,
        Renderer.Options.isStop, h]
    unfold Renderer.renderList Renderer.oneLevelList Renderer.renderChildren
    rw [hstop]
    simp only [Bool.false_or]
    split
    · rfl
    · rw [renderItems_stopped ctx item.children (level + 1) item.children
        ((options.subDepth).subMatchingDepth) h2 m 0]

/-- Witness for C5 at a concrete two-level tree: budget 0 gives the empty
string, budget 1 gives the one-level rendering. -/
theorem C5_depth_budget_witness :
    Renderer.renderList (Menu.NewCoreMatcher ([] : List (Menu.Voter Unit))) ()
        fixtureNewlineTree [] 0 { fixtureOptions with depth := some 0 }
      = ("", Menu.NewCoreMatcher [])
    ∧ Renderer.renderList (Menu.NewCoreMatcher ([] : List (Menu.Voter Unit))) ()
        fixtureNewlineTree [] 0 { fixtureOptions with depth := some 1 }
      = Renderer.oneLevelList (Menu.NewCoreMatcher []) () fixtureNewlineTree [] 0
          { fixtureOptions with depth := some 1 } :=
  ⟨(C5_depth_budget () (Menu.NewCoreMatcher []) fixtureNewlineTree [] 0
      { fixtureOptions with depth := some 0 }).1 rfl,
   (C5_depth_budget () (Menu.NewCoreMatcher []) fixtureNewlineTree [] 0
      { fixtureOptions with depth := some 1 }).2 rfl⟩

theorem addChild_parented (h : Heap.HeapM) (z y p : Nat)
    (hp : (h y).parent = some p) :
    Heap.addChild h z y = (h, .error .errItemBelongsToAnotherMenu) := by
  unfold Heap.addChild
  rw [hp]

/-- C6: attaching an item that already has a parent fails with
`ErrItemBelongsToAnotherMenu` and leaves the heap — in particular `x`'s
children and `y` — untouched for that attempt; after a successful
`x.AddChild(y)` the child's parent is set, so a second attach of `y` under
any parent fails with that error (and again changes nothing) rather than
being silently ignored. -/
theorem C6_addChild_ownership (h : Heap.HeapM) (x y : Nat) :
    ((h y).parent ≠ none →
        Heap.addChild h x y = (h, .error .errItemBelongsToAnotherMenu))
    ∧ ((h y).parent = none →
        (Heap.addChild h x y).2 = .ok y
        ∧ ((Heap.addChild h x y).1 y).parent = some x
        ∧ ∀ z : Nat, Heap.addChild (Heap.addChild h x y).1 z y
            = ((Heap.addChild h x y).1, .error .errItemBelongsToAnotherMenu)) := by
  constructor
  · intro hp
    cases hpp : (h y).parent with
    | none => exact absurd hpp hp
    | some p => exact addChild_parented h x y p hpp
  · intro hp
    have hparent : ((Heap.addChild h x y).1 y).parent = some x := by
      unfold Heap.addChild
      rw [hp]
      simp only [Heap.update]
      by_cases hyx : y = x
      · subst hyx
        simp
      · simp [hyx]
    refine ⟨?_, hparent, ?_⟩
    · unfold Heap.addChild
      rw [hp]
    · intro z
      exact addChild_parented _ z y x hparent

/-- Witness for C6: the parented fixture heap rejects the attach; on the
free fixture heap the first attach succeeds and the re-attach (under a
different parent) is rejected. -/
theorem C6_addChild_ownership_witness :
    Heap.addChild fixtureParentedHeap 0 1
      = (fixtureParentedHeap, .error .errItemBelongsToAnotherMenu)
    ∧ (Heap.addChild fixtureBagHeap 0 1).2 = .ok 1
    ∧ Heap.addChild (Heap.addChild fixtureBagHeap 0 1).1 2 1
      = ((Heap.addChild fixtureBagHeap 0 1).1, .error .errItemBelongsToAnotherMenu) :=
  ⟨(C6_addChild_ownership fixtureParentedHeap 0 1).1 (by decide),
   ((C6_addChild_ownership fixtureBagHeap 0 1).2 (by decide)).1,
   ((C6_addChild_ownership fixtureBagHeap 0 1).2 (by decide)).2.2 2⟩

/-- C4 as stated is false: `Copy` (Go `item := *i`) carries the five bag
references over to the copy unchanged, so the copy's attribute bags and
extras bag are the very same mutable maps as the original's — here the
one-node heap is copied successfully and every bag reference of the copy
(node 1) equals the original's (node 0). -/
theorem C4_copy_shares_bags_counterexample :
    (Heap.copy 1 (fixtureBagHeap, 1) 0).2 = .ok 1
    ∧ ((Heap.copy 1 (fixtureBagHeap, 1) 0).1.1 1).attributes = (fixtureBagHeap 0).attributes
    ∧ ((Heap.copy 1 (fixtureBagHeap, 1) 0).1.1 1).linkAttributes = (fixtureBagHeap 0).linkAttributes
    ∧ ((Heap.copy 1 (fixtureBagHeap, 1) 0).1.1 1).childrenAttributes = (fixtureBagHeap 0).childrenAttributes
    ∧ ((Heap.copy 1 (fixtureBagHeap, 1) 0).1.1 1).labelAttributes = (fixtureBagHeap 0).labelAttributes
    ∧ ((Heap.copy 1 (fixtureBagHeap, 1) 0).1.1 1).extras = (fixtureBagHeap 0).extras := by
  refine ⟨rfl, by decide, by decide, by decide, by decide, by decide⟩

namespace Heap

theorem update_ne (h : HeapM) (i : Nat) (nd : Node) (j : Nat) (hj : j ≠ i) :
    update h i nd j = h j := by
  simp [update, hj]

theorem update_eq (h : HeapM) (i : Nat) (nd : Node) :
    update h i nd i = nd := by
  simp [update]

theorem copy_succ (fuel : Nat) (h : HeapM) (next i : Nat) :
    copy (fuel + 1) (h, next) i
      = (h i).children.foldl (copyFoldStep fuel next)
          ((update h next { h i with parent := none, children := [] }, next + 1),
            .ok next) := rfl

theorem addChild_free (h : HeapM) (x y : Nat) (hp : (h y).parent = none) :
    addChild h x y
      = (update (update h y { h y with parent := some x }) x
          { (update h y { h y with parent := some x }) x with
              children := ((update h y { h y with parent := some x }) x).children ++ [y] },
         .ok y) := by
  unfold addChild
  rw [hp]

theorem subtreeIn_mono : ∀ (fuel : Nat) (h : HeapM) (i lo hi lo' hi' : Nat),
    lo' ≤ lo → hi ≤ hi' → subtreeIn fuel h i lo hi = true → subtreeIn fuel h i lo' hi' = true
  | 0, _, _, _, _, _, _ => by
    intro _ _ hs
    simp [subtreeIn] at hs
  | fuel + 1, h, i, lo, hi, lo', hi' => by
    intro hlo hhi hs
    simp only [subtreeIn, Bool.and_eq_true, decide_eq_true_eq, List.all_eq_true] at hs ⊢
    obtain ⟨⟨h1, h2⟩, h3⟩ := hs
    exact ⟨⟨le_trans hlo h1, lt_of_lt_of_le h2 hhi⟩,
      fun c hc => subtreeIn_mono fuel h c lo hi lo' hi' hlo hhi (h3 c hc)⟩

theorem subtreeIn_congr_range : ∀ (fuel : Nat) (h1 h2 : HeapM) (lo hi : Nat),
    (∀ j, lo ≤ j → j < hi → h2 j = h1 j) →
    ∀ i, subtreeIn fuel h1 i lo hi = true → subtreeIn fuel h2 i lo hi = true
  | 0, _, _, _, _ => by
    intro _ i hs
    simp [subtreeIn] at hs
  | fuel + 1, h1, h2, lo, hi => by
    intro hag i hs
    simp only [subtreeIn, Bool.and_eq_true, decide_eq_true_eq, List.all_eq_true] at hs ⊢
    obtain ⟨⟨hb1, hb2⟩, hall⟩ := hs
    have hji : h2 i = h1 i := hag i hb1 hb2
    rw [hji]
    exact ⟨⟨hb1, hb2⟩,
      fun c hc => subtreeIn_congr_range fuel h1 h2 lo hi hag c (hall c hc)⟩

theorem skel_congr_range : ∀ (fuel : Nat) (h1 h2 : HeapM) (lo hi : Nat),
    (∀ j, lo ≤ j → j < hi → h2 j = h1 j) →
    ∀ i, subtreeIn fuel h1 i lo hi = true → skel fuel h2 i = skel fuel h1 i
  | 0, _, _, _, _ => by
    intro _ i _
    rfl
  | fuel + 1, h1, h2, lo, hi => by
    intro hag i hs
    simp only [subtreeIn, Bool.and_eq_true, decide_eq_true_eq, List.all_eq_true] at hs
    obtain ⟨⟨hb1, hb2⟩, hall⟩ := hs
    have hji : h2 i = h1 i := hag i hb1 hb2
    have hmap : (h1 i).children.map (skel fuel h2) = (h1 i).children.map (skel fuel h1) :=
      List.map_congr_left
        (fun c hc => skel_congr_range fuel h1 h2 lo hi hag c (hall c hc))
    simp only [skel, hji, hmap]

theorem node_mod_parent_eq (n m : Node)
    (h : ({ n with parent := none } : Node) = { m with parent := none }) :
    n.name = m.name ∧ n.uri = m.uri ∧ n.label = m.label ∧ n.position = m.position
    ∧ n.displayChildren = m.displayChildren ∧ n.display = m.display
    ∧ n.current = m.current ∧ n.attributes = m.attributes
    ∧ n.linkAttributes = m.linkAttributes ∧ n.childrenAttributes = m.childrenAttributes
    ∧ n.labelAttributes = m.labelAttributes ∧ n.extras = m.extras
    ∧ n.children = m.children := by
  cases n
  cases m
  simp only [Node.mk.injEq] at h
  obtain ⟨e1, e2, e3, e4, e5, e6, e7, e8, e9, e10, e11, e12, _, e14⟩ := h
  exact ⟨e1, e2, e3, e4, e5, e6, e7, e8, e9, e10, e11, e12, e14⟩

theorem subtreeIn_mod_parent : ∀ (fuel : Nat) (h1 h2 : HeapM),
    (∀ j, ({ h2 j with parent := none } : Node) = { h1 j with parent := none }) →
    ∀ i lo hi, subtreeIn fuel h2 i lo hi = subtreeIn fuel h1 i lo hi
  | 0, _, _, _, _, _, _ => rfl
  | fuel + 1, h1, h2, hmp, i, lo, hi => by
    have hch : (h2 i).children = (h1 i).children :=
      (node_mod_parent_eq _ _ (hmp i)).2.2.2.2.2.2.2.2.2.2.2.2
    have hrec : (fun c => subtreeIn fuel h2 c lo hi) = fun c => subtreeIn fuel h1 c lo hi :=
      funext (fun c => subtreeIn_mod_parent fuel h1 h2 hmp c lo hi)
    simp only [subtreeIn, hch, hrec]

theorem skel_mod_parent : ∀ (fuel : Nat) (h1 h2 : HeapM),
    (∀ j, ({ h2 j with parent := none } : Node) = { h1 j with parent := none }) →
    ∀ i, skel fuel h2 i = skel fuel h1 i
  | 0, _, _, _, _ => rfl
  | fuel + 1, h1, h2, hmp, i => by
    have hrec : skel fuel h2 = skel fuel h1 :=
      funext (skel_mod_parent fuel h1 h2 hmp)
    obtain ⟨e1, e2, e3, e4, e5, e6, e7, e8, e9, e10, e11, e12, e14⟩ :=
      node_mod_parent_eq _ _ (hmp i)
    simp only [skel, hrec, e1, e2, e3, e4, e5, e6, e7, e8, e9, e10, e11, e12, e14]

theorem optList_total {α : Type} : ∀ (l : List (Option α)),
    (∀ x ∈ l, x.isSome = true) → ∃ ys, optList l = some ys
  | [], _ => ⟨[], rfl⟩
  | some x :: xs, hall => by
    obtain ⟨ys, hys⟩ := optList_total xs (fun y hy => hall y (List.mem_cons_of_mem _ hy))
    exact ⟨x :: ys, by simp [optList, hys]⟩
  | none :: xs, hall => by
    have := hall none (List.mem_cons_self _ _)
    simp at this

theorem skel_total : ∀ (fuel : Nat) (h : HeapM) (i lo hi : Nat),
    subtreeIn fuel h i lo hi = true → (skel fuel h i).isSome = true
  | 0, _, _, _, _ => by
    intro hs
    simp [subtreeIn] at hs
  | fuel + 1, h, i, lo, hi => by
    intro hs
    simp only [subtreeIn, Bool.and_eq_true, decide_eq_true_eq, List.all_eq_true] at hs
    obtain ⟨_, hall⟩ := hs
    have : ∀ x ∈ (h i).children.map (skel fuel h), x.isSome = true := by
      intro x hx
      obtain ⟨c, hc, rfl⟩ := List.mem_map.mp hx
      exact skel_total fuel h c lo hi (hall c hc)
    obtain ⟨ys, hys⟩ := optList_total _ this
    simp [skel, hys]

end Heap

namespace Heap

theorem update_parent_mod (h : HeapM) (y : Nat) (p : Option Nat) :
    ∀ j, ({ (update h y { h y with parent := p }) j with parent := none } : Node)
        = { h j with parent := none } := by
  intro j
  by_cases hj : j = y
  · subst hj
    simp [update]
  · simp [update, hj]

theorem copyChildren_ok (fuel : Nat)
    (IH : ∀ (h : HeapM) (next i : Nat), subtreeIn fuel h i 0 next = true →
      ∃ h2 n2,
        copy fuel (h, next) i = ((h2, n2), .ok next)
        ∧ next < n2
        ∧ (∀ j, j < next → h2 j = h j)
        ∧ (h2 next).parent = none
        ∧ ({ h2 next with parent := none, children := [] }
            = { h i with parent := none, children := [] })
        ∧ skel fuel h2 next = skel fuel h i
        ∧ subtreeIn fuel h2 next next n2 = true)
    (horig : HeapM) (b0 rootId : Nat) (hb0r : b0 ≤ rootId) :
    ∀ (cs : List Nat), (∀ c ∈ cs, subtreeIn fuel horig c 0 b0 = true) →
    ∀ (h : HeapM) (n : Nat) (acc : List Nat),
      rootId < n →
      (∀ j, j < b0 → h j = horig j) →
      (h rootId).parent = none →
      (h rootId).children = acc →
      (∀ cid ∈ acc, subtreeIn fuel h cid (rootId + 1) n = true) →
      ∃ h2 n2 newIds,
        cs.foldl (copyFoldStep fuel rootId) ((h, n), .ok rootId) = ((h2, n2), .ok rootId)
        ∧ n ≤ n2
        ∧ (∀ j, j < b0 → h2 j = horig j)
        ∧ (h2 rootId).parent = none
        ∧ ({ h2 rootId with children := [] } = { h rootId with children := [] })
        ∧ (h2 rootId).children = acc ++ newIds
        ∧ (∀ cid ∈ acc ++ newIds, subtreeIn fuel h2 cid (rootId + 1) n2 = true)
        ∧ (acc ++ newIds).map (skel fuel h2)
            = acc.map (skel fuel h) ++ cs.map (skel fuel horig) := by
  intro cs
  induction cs with
  | nil =>
    intro _ h n acc hrn hpres hpar hch hsub
    refine ⟨h, n, [], rfl, le_refl n, hpres, hpar, rfl, by simp [hch], ?_, by simp⟩
    intro cid hcid
    exact hsub cid (by simpa using hcid)
  | cons c cs' ih =>
    intro hwf h n acc hrn hpres hpar hch hsub
    have hc0 : subtreeIn fuel horig c 0 b0 = true := hwf c (List.mem_cons_self _ _)
    have hwf' : ∀ x ∈ cs', subtreeIn fuel horig x 0 b0 = true :=
      fun x hx => hwf x (List.mem_cons_of_mem _ hx)
    have hagl : ∀ j, 0 ≤ j → j < b0 → h j = horig j := fun j _ hj => hpres j hj
    have hcInH : subtreeIn fuel h c 0 b0 = true :=
      subtreeIn_congr_range fuel horig h 0 b0 hagl c hc0
    have hbn : b0 ≤ n := le_trans hb0r (le_of_lt hrn)
    have hcN : subtreeIn fuel h c 0 n = true :=
      subtreeIn_mono fuel h c 0 b0 0 n (le_refl 0) hbn hcInH
    obtain ⟨hA, nA, hcopy, hnA, hpresA, hparA, hpayA, hskelA, hsubA⟩ := IH h n c hcN
    have hrn' : rootId ≠ n := Nat.ne_of_lt hrn
    -- the heap after re-attaching the copied child under the copied root
    have hstep : copyFoldStep fuel rootId ((h, n), .ok rootId) c
        = ((update (update hA n { hA n with parent := some rootId }) rootId
            { (update hA n { hA n with parent := some rootId }) rootId with
                children :=
                  ((update hA n { hA n with parent := some rootId }) rootId).children
                    ++ [n] },
           nA), .ok rootId) := by
      simp only [copyFoldStep, hcopy, addChild_free hA rootId n hparA]
    set hB : HeapM := update hA n { hA n with parent := some rootId } with hBdef
    set h3 : HeapM :=
      update hB rootId { hB rootId with children := (hB rootId).children ++ [n] }
      with h3def
    have hmpB : ∀ j, ({ hB j with parent := none } : Node) = { hA j with parent := none } :=
      update_parent_mod hA n (some rootId)
    have hag3 : ∀ j, rootId + 1 ≤ j → j < nA → h3 j = hB j := by
      intro j hj _
      exact update_ne hB rootId _ j (by omega)
    have hagA : ∀ j, rootId + 1 ≤ j → j < n → hA j = h j := fun j _ hj => hpresA j hj
    have hBrootEq : hB rootId = h rootId := by
      rw [hBdef, update_ne hA n _ rootId hrn']
      exact hpresA rootId hrn
    have h3rootEq : h3 rootId = { h rootId with children := acc ++ [n] } := by
      rw [h3def, update_eq, hBrootEq, hch]
    -- transport for the already-attached copies
    have old_sub : ∀ cid ∈ acc, subtreeIn fuel h3 cid (rootId + 1) nA = true := by
      intro cid hcid
      have s1 := hsub cid hcid
      have s2 : subtreeIn fuel hA cid (rootId + 1) n = true :=
        subtreeIn_congr_range fuel h hA (rootId + 1) n hagA cid s1
      have s3 : subtreeIn fuel hA cid (rootId + 1) nA = true :=
        subtreeIn_mono fuel hA cid (rootId + 1) n (rootId + 1) nA (le_refl _)
          (le_of_lt hnA) s2
      have s4 : subtreeIn fuel hB cid (rootId + 1) nA = true := by
        rw [subtreeIn_mod_parent fuel hA hB hmpB]
        exact s3
      exact subtreeIn_congr_range fuel hB h3 (rootId + 1) nA hag3 cid s4
    have old_skel : ∀ cid ∈ acc, skel fuel h3 cid = skel fuel h cid := by
      intro cid hcid
      have s1 := hsub cid hcid
      have s2 : subtreeIn fuel hA cid (rootId + 1) n = true :=
        subtreeIn_congr_range fuel h hA (rootId + 1) n hagA cid s1
      have s3 : subtreeIn fuel hA cid (rootId + 1) nA = true :=
        subtreeIn_mono fuel hA cid (rootId + 1) n (rootId + 1) nA (le_refl _)
          (le_of_lt hnA) s2
      have s4 : subtreeIn fuel hB cid (rootId + 1) nA = true := by
        rw [subtreeIn_mod_parent fuel hA hB hmpB]
        exact s3
      have k1 : skel fuel hA cid = skel fuel h cid :=
        skel_congr_range fuel h hA (rootId + 1) n hagA cid s1
      have k2 : skel fuel hB cid = skel fuel hA cid := skel_mod_parent fuel hA hB hmpB cid
      have k3 : skel fuel h3 cid = skel fuel hB cid :=
        skel_congr_range fuel hB h3 (rootId + 1) nA hag3 cid s4
      rw [k3, k2, k1]
    -- transport for the freshly copied child
    have new_subB : subtreeIn fuel hB n (rootId + 1) nA = true := by
      rw [subtreeIn_mod_parent fuel hA hB hmpB]
      exact subtreeIn_mono fuel hA n n nA (rootId + 1) nA (by omega) (le_refl _) hsubA
    have new_sub : subtreeIn fuel h3 n (rootId + 1) nA = true :=
      subtreeIn_congr_range fuel hB h3 (rootId + 1) nA hag3 n new_subB
    have new_skel : skel fuel h3 n = skel fuel horig c := by
      have u4 : skel fuel h3 n = skel fuel hB n :=
        skel_congr_range fuel hB h3 (rootId + 1) nA hag3 n new_subB
      have u3 : skel fuel hB n = skel fuel hA n := skel_mod_parent fuel hA hB hmpB n
      have u2 : skel fuel h c = skel fuel horig c :=
        skel_congr_range fuel horig h 0 b0 hagl c hc0
      rw [u4, u3, hskelA, u2]
    -- hypotheses of the tail call
    have pres3 : ∀ j, j < b0 → h3 j = horig j := by
      intro j hj
      have e3 : h3 j = hB j := update_ne hB rootId _ j (by omega)
      have eB : hB j = hA j := update_ne hA n _ j (by omega)
      rw [e3, eB, hpresA j (by omega), hpres j hj]
    have par3 : (h3 rootId).parent = none := by
      rw [h3rootEq]
      exact hpar
    have ch3 : (h3 rootId).children = acc ++ [n] := by
      rw [h3rootEq]
    have sub3 : ∀ cid ∈ acc ++ [n], subtreeIn fuel h3 cid (rootId + 1) nA = true := by
      intro cid hcid
      rcases List.mem_append.mp hcid with hm | hm
      · exact old_sub cid hm
      · rw [List.mem_singleton.mp hm]
        exact new_sub
    obtain ⟨h2, n2, newIds', hfold, hle2, hpres2, hpar2, hpay2, hch2, hsub2, hmap2⟩ :=
      ih hwf' h3 nA (acc ++ [n]) (lt_trans hrn hnA) pres3 par3 ch3 sub3
    have hmap3 : (acc ++ [n]).map (skel fuel h3)
        = acc.map (skel fuel h) ++ [skel fuel horig c] := by
      rw [List.map_append]
      congr 1
      · exact List.map_congr_left old_skel
      · simp [new_skel]
    refine ⟨h2, n2, n :: newIds', ?_, le_trans (le_of_lt hnA) hle2, hpres2, hpar2, ?_, ?_, ?_, ?_⟩
    · rw [List.foldl_cons, hstep]
      exact hfold
    · rw [hpay2, h3rootEq]
    · rw [hch2, List.append_assoc]
      rfl
    · intro cid hcid
      refine hsub2 cid ?_
      rw [List.append_assoc]
      exact hcid
    · have : acc ++ n :: newIds' = (acc ++ [n]) ++ newIds' := by
        rw [List.append_assoc]
        rfl
      rw [this, hmap2, hmap3, List.map_cons, List.append_assoc]
      rfl

end Heap

namespace Heap

theorem node_set_parent_none (nd : Node) (hp : nd.parent = none) :
    ({ nd with parent := none, children := [] } : Node) = { nd with children := [] } := by
  cases nd
  simp only at hp
  subst hp
  rfl

theorem node_mod_pc_eq (nd md : Node)
    (h : ({ nd with parent := none, children := [] } : Node)
        = { md with parent := none, children := [] }) :
    nd.name = md.name ∧ nd.uri = md.uri ∧ nd.label = md.label
    ∧ nd.position = md.position ∧ nd.displayChildren = md.displayChildren
    ∧ nd.display = md.display ∧ nd.current = md.current
    ∧ nd.attributes = md.attributes ∧ nd.linkAttributes = md.linkAttributes
    ∧ nd.childrenAttributes = md.childrenAttributes
    ∧ nd.labelAttributes = md.labelAttributes ∧ nd.extras = md.extras := by
  cases nd
  cases md
  simp only [Node.mk.injEq] at h
  obtain ⟨e1, e2, e3, e4, e5, e6, e7, e8, e9, e10, e11, e12, _, _⟩ := h
  exact ⟨e1, e2, e3, e4, e5, e6, e7, e8, e9, e10, e11, e12⟩

theorem copy_ok : ∀ (fuel : Nat) (h : HeapM) (next i : Nat),
    subtreeIn fuel h i 0 next = true →
    ∃ h2 n2,
      copy fuel (h, next) i = ((h2, n2), .ok next)
      ∧ next < n2
      ∧ (∀ j, j < next → h2 j = h j)
      ∧ (h2 next).parent = none
      ∧ ({ h2 next with parent := none, children := [] }
          = { h i with parent := none, children := [] })
      ∧ skel fuel h2 next = skel fuel h i
      ∧ subtreeIn fuel h2 next next n2 = true := by
  intro fuel
  induction fuel with
  | zero =>
    intro h next i hs
    simp [subtreeIn] at hs
  | succ fuel IH =>
    intro h next i hs
    simp only [subtreeIn, Bool.and_eq_true, decide_eq_true_eq, List.all_eq_true] at hs
    obtain ⟨⟨_, hin⟩, hall⟩ := hs
    set hU : HeapM := update h next { h i with parent := none, children := [] } with hUdef
    have hpres0 : ∀ j, j < next → hU j = h j := fun j hj =>
      update_ne h next _ j (by omega)
    have hUnext : hU next = { h i with parent := none, children := [] } := by
      rw [hUdef, update_eq]
    have hpar0 : (hU next).parent = none := by rw [hUnext]
    have hch0 : (hU next).children = [] := by rw [hUnext]
    obtain ⟨h2, n2, newIds, hfold, hle, hpres2, hpar2, hpay2, hch2, hsub2, hmap2⟩ :=
      copyChildren_ok fuel IH h next next (le_refl next) (h i).children hall hU
        (next + 1) [] (by omega) hpres0 hpar0 hch0
        (by intro cid hcid; exact absurd hcid (List.not_mem_nil cid))
    have hpayload : ({ h2 next with parent := none, children := [] } : Node)
        = { h i with parent := none, children := [] } := by
      rw [node_set_parent_none _ hpar2, hpay2, hUnext]
    have hchEq : (h2 next).children = newIds := by
      rw [hch2]
      simp
    have hmapEq : newIds.map (skel fuel h2) = (h i).children.map (skel fuel h) := by
      simpa using hmap2
    refine ⟨h2, n2, ?_, by omega, hpres2, hpar2, hpayload, ?_, ?_⟩
    · rw [copy_succ]
      exact hfold
    · obtain ⟨e1, e2, e3, e4, e5, e6, e7, e8, e9, e10, e11, e12⟩ :=
        node_mod_pc_eq _ _ hpayload
      simp only [skel, hchEq, hmapEq, e1, e2, e3, e4, e5, e6, e7, e8, e9, e10, e11, e12]
    · simp only [subtreeIn, Bool.and_eq_true, decide_eq_true_eq, List.all_eq_true]
      refine ⟨⟨le_refl next, by omega⟩, ?_⟩
      intro cid hcid
      rw [hchEq] at hcid
      have := hsub2 cid (by simpa using hcid)
      exact subtreeIn_mono fuel h2 cid (next + 1) n2 next n2 (by omega) (le_refl _) this

end Heap

/-- C4 amended: on a well-formed finite subtree, `Copy` always succeeds and
returns a freshly allocated root (the next free reference) whose `Parent`
is nil; the entire subtree — every scalar field, the bag references and the
child structure — is recursively copied and re-attached (equal skeletons),
and the original heap below the allocation point is left untouched; but the
five attribute/extras bags are shared between copy and original (the copy
holds the same bag references), not duplicated, and any child-copy or
attach failure would be propagated (the fold carries the first failure
out). -/
theorem C4_copy_detached_shared_bags (fuel : Nat) (h : Heap.HeapM) (next i : Nat)
    (hwf : Heap.subtreeIn fuel h i 0 next = true) :
    ∃ h2 n2,
      Heap.copy fuel (h, next) i = ((h2, n2), .ok next)
      ∧ (h2 next).parent = none
      ∧ (Heap.skel fuel h i).isSome = true
      ∧ Heap.skel fuel h2 next = Heap.skel fuel h i
      ∧ (h2 next).attributes = (h i).attributes
      ∧ (h2 next).linkAttributes = (h i).linkAttributes
      ∧ (h2 next).childrenAttributes = (h i).childrenAttributes
      ∧ (h2 next).labelAttributes = (h i).labelAttributes
      ∧ (h2 next).extras = (h i).extras
      ∧ next < n2
      ∧ (∀ j, j < next → h2 j = h j) := by
  obtain ⟨h2, n2, hcopy, hlt, hpres, hpar, hpay, hskel, _⟩ :=
    Heap.copy_ok fuel h next i hwf
  obtain ⟨_, _, _, _, _, _, _, e8, e9, e10, e11, e12⟩ := Heap.node_mod_pc_eq _ _ hpay
  exact ⟨h2, n2, hcopy, hpar, Heap.skel_total fuel h i 0 next hwf, hskel,
    e8, e9, e10, e11, e12, hlt, hpres⟩

/-- Witness for the amended C4 at the concrete two-node fixture subtree. -/
theorem C4_copy_detached_shared_bags_witness :
    ∃ h2 n2,
      Heap.copy 2 (fixtureTwoNodeHeap, 2) 0 = ((h2, n2), .ok 2)
      ∧ (h2 2).parent = none
      ∧ (Heap.skel 2 fixtureTwoNodeHeap 0).isSome = true
      ∧ Heap.skel 2 h2 2 = Heap.skel 2 fixtureTwoNodeHeap 0
      ∧ (h2 2).attributes = (fixtureTwoNodeHeap 0).attributes
      ∧ (h2 2).linkAttributes = (fixtureTwoNodeHeap 0).linkAttributes
      ∧ (h2 2).childrenAttributes = (fixtureTwoNodeHeap 0).childrenAttributes
      ∧ (h2 2).labelAttributes = (fixtureTwoNodeHeap 0).labelAttributes
      ∧ (h2 2).extras = (fixtureTwoNodeHeap 0).extras
      ∧ 2 < n2
      ∧ (∀ j, j < 2 → h2 j = fixtureTwoNodeHeap j) :=
  C4_copy_detached_shared_bags 2 fixtureTwoNodeHeap 2 0 (by decide)

-- C8: newline-freeness machinery -------------------------------------

/-- The string contains no newline character. -/
def nlFree (s : String) : Bool := s.data.all (fun c => !(c == '\n'))

/-- Every key and value of the attribute bag is newline-free. -/
def nlFreePairs (l : List (String × String)) : Bool :=
  l.all (fun p => nlFree p.1 && nlFree p.2)

mutual

/-- Every rendered text field of the item and of its subtree (URI, label,
the four attribute bags) is newline-free. (`Name` and the extras are never
emitted by the list renderer.) -/
def nlFreeItem : Menu.Item → Bool
  | .mk d children =>
    nlFree d.uri && nlFree d.label && nlFreePairs d.attributes
      && nlFreePairs d.linkAttributes && nlFreePairs d.childrenAttributes
      && nlFreePairs d.labelAttributes && nlFreeItems children

def nlFreeItems : List Menu.Item → Bool
  | [] => true
  | c :: cs => nlFreeItem c && nlFreeItems cs

end

/-- Every class-name option the renderer can emit is newline-free. -/
def nlFreeOptions (o : Renderer.Options) : Bool :=
  nlFree o.currentClass && nlFree o.ancestorClass && nlFree o.firstClass
    && nlFree o.lastClass && nlFree o.leafClass && nlFree o.branchClass

theorem nlFree_append (a b : String) :
    nlFree (a ++ b) = (nlFree a && nlFree b) := by
  simp [nlFree, String.data_append, List.all_append]

theorem nlFree_spaces (n : Nat) : nlFree (Renderer.spaces n) = true := by
  simp only [nlFree, Renderer.spaces, List.all_eq_true, List.mem_replicate]
  intro c hc
  rw [hc.2]
  decide

theorem nlFree_escapeChar (c : Char) (hc : (!(c == '\n')) = true) :
    nlFree (Internal.escapeChar c) = true := by
  unfold Internal.escapeChar
  split
  · decide
  · split
    · decide
    · split
      · decide
      · split
        · decide
        · split
          · decide
          · simpa [nlFree, String.singleton] using hc

theorem nlFree_escapeList : ∀ (l : List Char),
    l.all (fun c => !(c == '\n')) = true → nlFree (Internal.escapeList l) = true
  | [], _ => rfl
  | c :: cs, hall => by
    simp only [List.all_cons, Bool.and_eq_true] at hall
    rw [Internal.escapeList, nlFree_append, nlFree_escapeChar c hall.1,
      nlFree_escapeList cs hall.2]
    rfl

theorem nlFree_escapeString (s : String) (hs : nlFree s = true) :
    nlFree (Internal.escapeString s) = true :=
  nlFree_escapeList s.data hs

theorem nlFree_join : ∀ (l : List String) (sep : String),
    (∀ s ∈ l, nlFree s = true) → nlFree sep = true →
    nlFree (Internal.join sep l) = true
  | [], _, _, _ => rfl
  | [x], sep, hall, _ => by
    simpa [Internal.join] using hall x (List.mem_singleton_self x)
  | x :: y :: ys, sep, hall, hsep => by
    rw [show Internal.join sep (x :: y :: ys) = x ++ sep ++ Internal.join sep (y :: ys)
        from rfl,
      nlFree_append, nlFree_append, hall x (List.mem_cons_self _ _), hsep,
      nlFree_join (y :: ys) sep (fun s hs => hall s (List.mem_cons_of_mem _ hs)) hsep]
    rfl

theorem nlFree_trimSpace (s : String) (hs : nlFree s = true) :
    nlFree (Internal.trimSpace s) = true := by
  simp only [nlFree, List.all_eq_true, Internal.trimSpace] at hs ⊢
  intro c hc
  apply hs
  replace hc := List.mem_reverse.mp hc
  replace hc := (List.dropWhile_sublist _).subset hc
  replace hc := List.mem_reverse.mp hc
  exact (List.dropWhile_sublist _).subset hc

theorem nlFree_HTMLAttribute (name value : String)
    (h1 : nlFree name = true) (h2 : nlFree value = true) :
    nlFree (Internal.HTMLAttribute name value) = true := by
  unfold Internal.HTMLAttribute
  split
  · rfl
  · rw [nlFree_append, nlFree_append, nlFree_append, h1,
      nlFree_escapeString value h2]
    rfl

theorem nlFree_HTMLAttributes : ∀ (l : List (String × String)),
    nlFreePairs l = true → nlFree (Internal.HTMLAttributes l) = true
  | [], _ => rfl
  | (n, v) :: rest, hall => by
    simp only [nlFreePairs, List.all_cons, Bool.and_eq_true] at hall
    obtain ⟨⟨hn, hv⟩, hrest⟩ := hall
    rw [Internal.HTMLAttributes, nlFree_append]
    have htail : nlFree (Internal.HTMLAttributes rest) = true :=
      nlFree_HTMLAttributes rest hrest
    split
    · rw [htail]
      rfl
    · rw [htail, nlFree_append, nlFree_HTMLAttribute n v hn hv]
      rfl

theorem nlFree_HTMLClasses (classes : List String)
    (hall : ∀ s ∈ classes, nlFree s = true) :
    nlFree (Internal.HTMLClasses classes) = true :=
  nlFree_trimSpace _ (nlFree_join classes " " hall (by decide))

theorem nlFree_digitChar (m : Nat) (hm : m < 10) :
    (!(Nat.digitChar m == '\n')) = true := by
  interval_cases m <;> decide

theorem nlFree_toDigitsCore : ∀ (fuel n : Nat) (acc : List Char),
    acc.all (fun c => !(c == '\n')) = true →
    (Nat.toDigitsCore 10 fuel n acc).all (fun c => !(c == '\n')) = true
  | 0, _, acc, hacc => hacc
  | fuel + 1, n, acc, hacc => by
    have hd : (!(Nat.digitChar (n % 10) == '\n')) = true :=
      nlFree_digitChar (n % 10) (Nat.mod_lt n (by decide))
    have hacc' : ((Nat.digitChar (n % 10) :: acc).all (fun c => !(c == '\n'))) = true := by
      simp only [List.all_cons, Bool.and_eq_true]
      exact ⟨hd, hacc⟩
    rw [Nat.toDigitsCore]
    split
    · exact hacc'
    · exact nlFree_toDigitsCore fuel (n / 10) (Nat.digitChar (n % 10) :: acc) hacc'

theorem nlFree_natRepr (n : Nat) : nlFree (toString n) = true := by
  show nlFree (Nat.repr n) = true
  unfold Nat.repr Nat.toDigits
  exact nlFree_toDigitsCore (n + 1) n [] rfl

theorem nlFree_lookupD : ∀ (l : List (String × String)) (k d : String),
    nlFreePairs l = true → nlFree d = true →
    nlFree (match l.lookup k with | some v => v | none => d) = true
  | [], _, _, _, hd => hd
  | (a, b) :: rest, k, d, hall, hd => by
    simp only [nlFreePairs, List.all_cons, Bool.and_eq_true] at hall
    obtain ⟨⟨_, hb⟩, hrest⟩ := hall
    rw [List.lookup]
    cases hka : (k == a) with
    | true =>
      simp only [hka]
      exact hb
    | false =>
      simp only [hka]
      exact nlFree_lookupD rest k d hrest hd

theorem nlFree_attribute (i : Menu.Item) (k d : String)
    (h : nlFreePairs i.attributes = true) (hd : nlFree d = true) :
    nlFree (i.attribute k d) = true :=
  nlFree_lookupD i.attributes k d h hd

theorem nlFree_childrenAttribute (i : Menu.Item) (k d : String)
    (h : nlFreePairs i.childrenAttributes = true) (hd : nlFree d = true) :
    nlFree (i.childrenAttribute k d) = true :=
  nlFree_lookupD i.childrenAttributes k d h hd

theorem nlFreePairs_setAttr (l : List (String × String)) (k v : String)
    (hl : nlFreePairs l = true) (hk : nlFree k = true) (hv : nlFree v = true) :
    nlFreePairs (Renderer.setAttr l k v) = true := by
  unfold Renderer.setAttr
  split
  · simp only [nlFreePairs, List.all_eq_true] at hl ⊢
    intro p hp
    obtain ⟨q, hq, hpq⟩ := List.mem_map.mp hp
    by_cases hqk : q.1 = k
    · rw [← hpq]
      simp only [hqk, if_pos rfl]
      simp [hk, hv]
    · rw [← hpq]
      simp only [if_neg hqk]
      exact hl q hq
  · simp only [nlFreePairs, List.all_append, Bool.and_eq_true]
    refine ⟨hl, ?_⟩
    simp [hk, hv]

theorem nlFreeItem_fields (i : Menu.Item) (h : nlFreeItem i = true) :
    nlFree i.uri = true ∧ nlFree i.label = true ∧ nlFreePairs i.attributes = true
    ∧ nlFreePairs i.linkAttributes = true ∧ nlFreePairs i.childrenAttributes = true
    ∧ nlFreePairs i.labelAttributes = true ∧ nlFreeItems i.children = true := by
  cases i with
  | mk d cs =>
    simp only [nlFreeItem, Bool.and_eq_true] at h
    obtain ⟨⟨⟨⟨⟨⟨h1, h2⟩, h3⟩, h4⟩, h5⟩, h6⟩, h7⟩ := h
    exact ⟨h1, h2, h3, h4, h5, h6, h7⟩

theorem nlFreeOptions_fields (o : Renderer.Options) (h : nlFreeOptions o = true) :
    nlFree o.currentClass = true ∧ nlFree o.ancestorClass = true
    ∧ nlFree o.firstClass = true ∧ nlFree o.lastClass = true
    ∧ nlFree o.leafClass = true ∧ nlFree o.branchClass = true := by
  simp only [nlFreeOptions, Bool.and_eq_true] at h
  obtain ⟨⟨⟨⟨⟨h1, h2⟩, h3⟩, h4⟩, h5⟩, h6⟩ := h
  exact ⟨h1, h2, h3, h4, h5, h6⟩

theorem extra_set_matchingDepth (o : Renderer.Options) (md : Option Int)
    (name : String) (deflt : Bool) :
    Renderer.Options.extra { o with matchingDepth := md } name deflt
      = o.extra name deflt := rfl

theorem extra_subDepth (o : Renderer.Options) (name : String) (deflt : Bool) :
    (o.subDepth).extra name deflt = o.extra name deflt := rfl

theorem extra_subMatchingDepth (o : Renderer.Options) (name : String) (deflt : Bool) :
    (o.subMatchingDepth).extra name deflt = o.extra name deflt := rfl

theorem nlFreeOptions_set_matchingDepth (o : Renderer.Options) (md : Option Int) :
    nlFreeOptions { o with matchingDepth := md } = nlFreeOptions o := rfl

theorem nlFreeOptions_subDepth (o : Renderer.Options) :
    nlFreeOptions o.subDepth = nlFreeOptions o := rfl

theorem nlFreeOptions_subMatchingDepth (o : Renderer.Options) :
    nlFreeOptions o.subMatchingDepth = nlFreeOptions o := rfl

theorem nlFree_branchLeaf (o : Renderer.Options) (item : Menu.Item)
    (ho : nlFreeOptions o = true) :
    ∀ s ∈ Renderer.branchLeafClasses o item, nlFree s = true := by
  obtain ⟨_, _, _, _, h5, h6⟩ := nlFreeOptions_fields o ho
  unfold Renderer.branchLeafClasses
  split
  · split
    · intro s hs
      rw [List.mem_singleton.mp hs]
      exact h6
    · intro s hs
      exact absurd hs (List.not_mem_nil s)
  · intro s hs
    rw [List.mem_singleton.mp hs]
    exact h5

theorem nlFree_renderLabel (item : Menu.Item) (opts : Renderer.Options)
    (hl : nlFree item.label = true) :
    nlFree (Renderer.renderLabel item opts) = true := by
  unfold Renderer.renderLabel
  split
  · exact hl
  · exact nlFree_escapeString _ hl

theorem nlFree_renderLinkElement (item : Menu.Item) (opts : Renderer.Options)
    (huri : nlFree item.uri = true) (hla : nlFreePairs item.linkAttributes = true)
    (hl : nlFree item.label = true) :
    nlFree (Renderer.renderLinkElement item opts) = true := by
  unfold Renderer.renderLinkElement
  simp only [nlFree_append]
  rw [nlFree_escapeString _ huri, nlFree_HTMLAttributes _ hla,
    nlFree_renderLabel item opts hl]
  decide

theorem nlFree_renderSpanElement (item : Menu.Item) (opts : Renderer.Options)
    (hlba : nlFreePairs item.labelAttributes = true) (hl : nlFree item.label = true) :
    nlFree (Renderer.renderSpanElement item opts) = true := by
  unfold Renderer.renderSpanElement
  simp only [nlFree_append]
  rw [nlFree_HTMLAttributes _ hlba, nlFree_renderLabel item opts hl]
  decide

theorem format_compressed (content typ : String) (level : Nat) (o : Renderer.Options)
    (h : o.extra "compressed" false = true) :
    Renderer.format content typ level o = content := by
  simp [Renderer.format, h]

theorem cas_nlFreeOptions {Ctx : Type} (m : Menu.CoreMatcher Ctx) (ctx : Ctx)
    (item : Menu.Item) (classes : List String) (opts : Renderer.Options) :
    nlFreeOptions ((Renderer.currentAncestorStep m ctx item classes opts).2.2)
      = nlFreeOptions opts := by
  unfold Renderer.currentAncestorStep
  split <;> rfl

theorem cas_subOpts {Ctx : Type} (m : Menu.CoreMatcher Ctx) (ctx : Ctx)
    (item : Menu.Item) (classes : List String) (opts : Renderer.Options)
    (name : String) (deflt : Bool) :
    (((((Renderer.currentAncestorStep m ctx item classes opts).2.2).subDepth).subMatchingDepth).extra
        name deflt)
      = opts.extra name deflt := by
  rw [extra_subMatchingDepth, extra_subDepth, cas_extra]

theorem cas_classes {Ctx : Type} (m : Menu.CoreMatcher Ctx) (ctx : Ctx)
    (item : Menu.Item) (classes : List String) (opts : Renderer.Options)
    (hcl : ∀ s ∈ classes, nlFree s = true) (hopts : nlFreeOptions opts = true) :
    ∀ s ∈ (Renderer.currentAncestorStep m ctx item classes opts).1, nlFree s = true := by
  obtain ⟨h1, h2, _, _, _, _⟩ := nlFreeOptions_fields opts hopts
  unfold Renderer.currentAncestorStep
  split
  · intro s hs
    rcases List.mem_append.mp hs with hm | hm
    · exact hcl s hm
    · rw [List.mem_singleton.mp hm]
      exact h1
  · split
    · intro s hs
      rcases List.mem_append.mp hs with hm | hm
      · exact hcl s hm
      · rw [List.mem_singleton.mp hm]
        exact h2
    · exact hcl

theorem nlFree_renderLink {Ctx : Type} (m : Menu.CoreMatcher Ctx) (ctx : Ctx)
    (item : Menu.Item) (level : Nat) (opts : Renderer.Options)
    (hcomp : opts.extra "compressed" false = true) (hitem : nlFreeItem item = true) :
    nlFree (Renderer.renderLink m ctx item level opts).1 = true := by
  obtain ⟨huri, hl, _, hla, _, hlba, _⟩ := nlFreeItem_fields item hitem
  unfold Renderer.renderLink
  split
  · rw [format_compressed _ _ _ _ hcomp]
    exact nlFree_renderSpanElement item opts hlba hl
  · split
    · rw [format_compressed _ _ _ _ hcomp]
      exact nlFree_renderLinkElement item opts huri hla hl
    · rw [format_compressed _ _ _ _ hcomp]
      exact nlFree_renderSpanElement item opts hlba hl

mutual

theorem nlFree_renderItem {Ctx : Type} (ctx : Ctx) :
    ∀ (item : Menu.Item) (m : Menu.CoreMatcher Ctx) (siblings : List Menu.Item)
      (idx level : Nat) (opts : Renderer.Options),
      opts.extra "compressed" false = true → nlFreeItem item = true →
      nlFreeOptions opts = true →
      nlFree (Renderer.renderItem m ctx siblings idx level item opts).1 = true
  | .mk d children => by
    intro m siblings idx level opts hcomp hitem hopts
    obtain ⟨huri, hlab, hattr, hla, hca, hlba, hchn⟩ :=
      nlFreeItem_fields (Menu.Item.mk d children) hitem
    simp only [Renderer.renderItem]
    cases hdisp : (Menu.Item.mk d children).display with
    | false =>
      simp only [hdisp, Bool.not_false, if_true]
      rfl
    | true =>
      simp only [hdisp, Bool.not_true, Bool.false_eq_true, if_false]
      set S := Renderer.currentAncestorStep m ctx (Menu.Item.mk d children)
        [(Menu.Item.mk d children).attribute "class" ""] opts with hS
      have hcompS : (S.2.2).extra "compressed" false = true := by
        rw [hS, cas_extra]
        exact hcomp
      have hoptsS : nlFreeOptions S.2.2 = true := by
        rw [hS, cas_nlFreeOptions]
        exact hopts
      obtain ⟨_, _, hS3, hS4, _, _⟩ := nlFreeOptions_fields _ hoptsS
      have hfmtS : ∀ (content typ : String) (lv : Nat),
          Renderer.format content typ lv S.2.2 = content :=
        fun content typ lv => format_compressed _ _ _ _ hcompS
      simp only [hfmtS]
      have hclbase : ∀ s ∈ [(Menu.Item.mk d children).attribute "class" ""],
          nlFree s = true := by
        intro s hs
        rw [List.mem_singleton.mp hs]
        exact nlFree_attribute _ _ _ hattr (by decide)
      have hcl4 : ∀ s ∈ ((S.1
            ++ (if Menu.actsLikeFirst siblings idx (Menu.Item.mk d children) then
                  [S.2.2.firstClass] else []))
            ++ (if Menu.actsLikeLast siblings idx (Menu.Item.mk d children) then
                  [S.2.2.lastClass] else []))
            ++ Renderer.branchLeafClasses S.2.2 (Menu.Item.mk d children),
          nlFree s = true := by
        refine List.forall_mem_append.mpr
          ⟨List.forall_mem_append.mpr ⟨List.forall_mem_append.mpr ⟨?_, ?_⟩, ?_⟩, ?_⟩
        · rw [hS]
          exact cas_classes m ctx _ _ opts hclbase hopts
        · split
          · intro s hs
            rw [List.mem_singleton.mp hs]
            exact hS3
          · intro s hs
            exact absurd hs (List.not_mem_nil s)
        · split
          · intro s hs
            rw [List.mem_singleton.mp hs]
            exact hS4
          · intro s hs
            exact absurd hs (List.not_mem_nil s)
        · exact nlFree_branchLeaf _ _ hoptsS
      have hccl : ∀ s ∈ [(Menu.Item.mk d children).childrenAttribute "class" "",
            "menu-level-" ++ toString level], nlFree s = true := by
        intro s hs
        rcases List.mem_cons.mp hs with hs | hs
        · rw [hs]
          exact nlFree_childrenAttribute _ _ _ hca (by decide)
        · rw [List.mem_singleton.mp hs, nlFree_append, nlFree_natRepr]
          decide
      have hcompO2 : ((S.2.2.subDepth).subMatchingDepth).extra "compressed" false = true := by
        rw [hS, cas_subOpts]
        exact hcomp
      have hoptsO2 : nlFreeOptions ((S.2.2.subDepth).subMatchingDepth) = true := by
        rw [nlFreeOptions_subMatchingDepth, nlFreeOptions_subDepth]
        exact hoptsS
      simp only [nlFree_append]
      rw [nlFree_HTMLAttributes _
          (nlFreePairs_setAttr _ _ _ hattr (by decide) (nlFree_HTMLClasses _ hcl4)),
        nlFree_renderLink S.2.1 ctx _ level S.2.2 hcompS hitem]
      split
      · show (nlFree "<li" && true && nlFree ">" && true && nlFree "" && nlFree "</li>") = true
        decide
      · simp only [nlFree_append]
        rw [nlFree_HTMLAttributes _
            (nlFreePairs_setAttr _ _ _ hca (by decide) (nlFree_HTMLClasses _ hccl)),
          nlFree_renderItems ctx children _ children 0 (level + 1)
            ((S.2.2.subDepth).subMatchingDepth) hcompO2 hchn hoptsO2]
        decide

theorem nlFree_renderItems {Ctx : Type} (ctx : Ctx) :
    ∀ (cs : List Menu.Item) (m : Menu.CoreMatcher Ctx) (siblings : List Menu.Item)
      (idx level : Nat) (opts : Renderer.Options),
      opts.extra "compressed" false = true → nlFreeItems cs = true →
      nlFreeOptions opts = true →
      nlFree (Renderer.renderItems m ctx siblings idx level cs opts).1 = true
  | [] => by
    intro m siblings idx level opts _ _ _
    rfl
  | c :: cs => by
    intro m siblings idx level opts hcomp hcs hopts
    simp only [nlFreeItems, Bool.and_eq_true] at hcs
    simp only [Renderer.renderItems]
    rw [nlFree_append,
      nlFree_renderItem ctx c m siblings idx level opts.copy hcomp hcs.1 hopts,
      nlFree_renderItems ctx cs _ siblings (idx + 1) level opts hcomp hcs.2 hopts]
    rfl

end

/-- C8 as stated is false: this compressed render is universally claimed to
contain "no newline characters", yet the concrete fixture — whose child's
label contains a newline — renders (with the compact flag set) to a string
that contains a newline: label text passes through `html.EscapeString`
untouched except for the five escaped characters, so item-supplied
whitespace survives into the output. -/
theorem C8_compact_newline_counterexample :
    fixtureOptionsCompressed.extra "compressed" false = true
    ∧ nlFree (Renderer.renderList (Menu.NewCoreMatcher ([] : List (Menu.Voter Unit))) ()
        fixtureNewlineTree [] 0 fixtureOptionsCompressed).1 = false := by
  refine ⟨rfl, by decide⟩

/-- C8 amended: in compact ("compressed") mode `format` returns every
fragment verbatim — the renderer inserts no indentation and no newline
separators, so the output is the byte-for-byte concatenation of the element
tags; consequently the rendered output contains a newline only when some
item-supplied text (URI, label, attribute bag entries, class options, or
the caller's attribute map) contains one: for newline-free inputs the
output is newline-free. -/
theorem C8_compact_concatenation {Ctx : Type} (ctx : Ctx) (m : Menu.CoreMatcher Ctx)
    (item : Menu.Item) (attrs : List (String × String)) (level : Nat)
    (options : Renderer.Options) (content typ : String) (lv : Nat)
    (hcomp : options.extra "compressed" false = true) :
    Renderer.format content typ lv options = content
    ∧ (nlFreeItem item = true → nlFreePairs attrs = true → nlFreeOptions options = true →
        nlFree (Renderer.renderList m ctx item attrs level options).1 = true) := by
  constructor
  · exact format_compressed content typ lv options hcomp
  · intro hitem hattrs hopts
    obtain ⟨_, _, _, _, _, _, hchn⟩ := nlFreeItem_fields item hitem
    unfold Renderer.renderList
    split
    · rfl
    · unfold Renderer.renderChildren
      have hfmt : ∀ (c t : String) (l2 : Nat), Renderer.format c t l2 options = c :=
        fun c t l2 => format_compressed c t l2 options hcomp
      simp only [hfmt, nlFree_append]
      rw [nlFree_HTMLAttributes _ hattrs,
        nlFree_renderItems ctx item.children m item.children 0 (level + 1)
          ((options.subDepth).subMatchingDepth)
          (by rw [extra_subMatchingDepth, extra_subDepth]; exact hcomp) hchn
          (by rw [nlFreeOptions_subMatchingDepth, nlFreeOptions_subDepth]; exact hopts)]
      decide

/-- Witness for the amended C8: a format call returns its fragment
verbatim, and a newline-free fixture tree renders compressed to a
newline-free string. -/
theorem C8_compact_concatenation_witness :
    Renderer.format "<x>" "li" 3 fixtureOptionsCompressed = "<x>"
    ∧ nlFree (Renderer.renderList (Menu.NewCoreMatcher ([] : List (Menu.Voter Unit))) ()
        (Menu.mkItem "r" none [Menu.mkItem "c" none []]) [] 0
        fixtureOptionsCompressed).1 = true :=
  ⟨(C8_compact_concatenation () (Menu.NewCoreMatcher [])
      (Menu.mkItem "r" none [Menu.mkItem "c" none []]) [] 0
      fixtureOptionsCompressed "<x>" "li" 3 rfl).1,
   (C8_compact_concatenation () (Menu.NewCoreMatcher [])
      (Menu.mkItem "r" none [Menu.mkItem "c" none []]) [] 0
      fixtureOptionsCompressed "<x>" "li" 3 rfl).2 (by decide) rfl (by decide)⟩
